import Mathlib

/-!
# Crossroads I/O core: epoll reactor and stream engine

A shallow embedding of `src/epoll.cpp` (the reactor: `add_fd`, `rm_fd`,
`set_pollin`, ..., and the dispatch part of `loop`) and of
`src/stream_engine.cpp` (`read`, `write`, `plug`, `unplug`, `in_event`,
`out_event`, `activate_in`, `error`), followed by theorems about them.

Conventions of the embedding.

* A `handle_t` (the address of a heap-allocated `poll_entry_t`) is the index of
  the entry in `epoll_t.heap`, the list of all poll entries allocated so far.
* The kernel side of `epoll_fd` is the list `epoll_t.interest` of registered
  fds; `epoll_ctl` fails exactly as epoll_ctl(2) documents (adding a negative or
  already registered fd, deleting or modifying an unregistered one), and a
  failed `errno_assert`/`xs_assert` stops the run.
* Calls out of the modelled code (sink callbacks, socket, decoder, encoder,
  session) are answered by explicit environment arguments, and every call is
  appended to a log so that order and multiplicity can be stated.
* `size_t` values are naturals reduced modulo `2 ^ 64`, `int` values are
  integers reduced into `[-2 ^ 31, 2 ^ 31)`.
-/

namespace xs

/-! ## epoll.cpp -/

abbrev fd_t := Int

/-- The sentinel stamped on a poll entry by `rm_fd` (`retired_fd = -1`). -/
def retired_fd : fd_t := -1

def EPOLLIN : Nat := 1
def EPOLLOUT : Nat := 4
def EPOLLERR : Nat := 8
def EPOLLHUP : Nat := 16

/-- A `poll_entry_t`: the fd, the armed mask `ev.events` and the sink
`events` (an `i_poll_events*`, here the identity of the sink). -/
structure poll_entry_t where
  fd : fd_t
  ev_events : Nat
  events : Nat
deriving DecidableEq, Repr

/-- The reactor state touched by `add_fd`, `rm_fd` and the mask setters. -/
structure epoll_t where
  heap : List poll_entry_t
  interest : List fd_t
  retired : List Nat
  load : Int
deriving DecidableEq, Repr

/-- The call `epoll_ctl (epoll_fd, EPOLL_CTL_ADD, fd, ..)`: fails on a bad or an
already registered fd. -/
def epoll_ctl_add (interest : List fd_t) (fd : fd_t) : Option (List fd_t) :=
  if fd < 0 ∨ fd ∈ interest then none else some (interest ++ [fd])

/-- The call `epoll_ctl (epoll_fd, EPOLL_CTL_DEL, fd, ..)`: fails on an
unregistered fd. -/
def epoll_ctl_del (interest : List fd_t) (fd : fd_t) : Option (List fd_t) :=
  if fd ∈ interest then some (interest.erase fd) else none

/-- The call `epoll_ctl (epoll_fd, EPOLL_CTL_MOD, fd, ..)`: succeeds exactly on
a registered fd. -/
def epoll_ctl_mod (interest : List fd_t) (fd : fd_t) : Bool :=
  decide (fd ∈ interest)

/-- `adjust_load`: the load metric of the thread changes by `amount`. -/
def adjust_load (amount : Int) (p : epoll_t) : epoll_t :=
  { p with load := p.load + amount }

/-- `epoll_t::add_fd`: a fresh entry with an empty mask, registered with the
kernel; the load grows by one; the handle of the new entry is returned. -/
def epoll_t.add_fd (p : epoll_t) (fd_ : fd_t) (events_ : Nat) : Option (epoll_t × Nat) :=
  let pe : poll_entry_t := { fd := fd_, ev_events := 0, events := events_ }
  match epoll_ctl_add p.interest fd_ with
  | none => none
  | some i =>
    some (adjust_load 1 { p with heap := p.heap ++ [pe], interest := i }, p.heap.length)

/-- `epoll_t::rm_fd`: unregisters `pe->fd`, stamps the entry as retired, queues
it on the retired list, and the load shrinks by one. -/
def epoll_t.rm_fd (p : epoll_t) (handle_ : Nat) : Option epoll_t :=
  match p.heap[handle_]? with
  | none => none
  | some pe =>
    match epoll_ctl_del p.interest pe.fd with
    | none => none
    | some i =>
      some (adjust_load (-1)
        { p with heap := p.heap.set handle_ { pe with fd := retired_fd },
                 interest := i,
                 retired := p.retired ++ [handle_] })

/-- The common shape of the four mask setters: update `pe->ev.events`, then
`EPOLL_CTL_MOD`. -/
def epoll_t.set_mask (p : epoll_t) (handle_ : Nat) (f : Nat → Nat) : Option epoll_t :=
  match p.heap[handle_]? with
  | none => none
  | some pe =>
    if epoll_ctl_mod p.interest pe.fd then
      some { p with heap := p.heap.set handle_ { pe with ev_events := f pe.ev_events } }
    else none

/-- `epoll_t::set_pollin`: `pe->ev.events |= EPOLLIN`. -/
def epoll_t.set_pollin (p : epoll_t) (handle_ : Nat) : Option epoll_t :=
  p.set_mask handle_ (fun m => m ||| EPOLLIN)

/-- `epoll_t::reset_pollin`: `pe->ev.events &= ~((short) EPOLLIN)`. -/
def epoll_t.reset_pollin (p : epoll_t) (handle_ : Nat) : Option epoll_t :=
  p.set_mask handle_ (fun m => m &&& (4294967295 - EPOLLIN))

/-- `epoll_t::set_pollout`: `pe->ev.events |= EPOLLOUT`. -/
def epoll_t.set_pollout (p : epoll_t) (handle_ : Nat) : Option epoll_t :=
  p.set_mask handle_ (fun m => m ||| EPOLLOUT)

/-- `epoll_t::reset_pollout`: `pe->ev.events &= ~((short) EPOLLOUT)`. -/
def epoll_t.reset_pollout (p : epoll_t) (handle_ : Nat) : Option epoll_t :=
  p.set_mask handle_ (fun m => m &&& (4294967295 - EPOLLOUT))

/-- A reactor operation a sink may perform from inside a callback. -/
inductive poller_op
  | add_fd (fd : fd_t) (sink : Nat)
  | rm_fd (h : Nat)
  | set_pollin (h : Nat)
  | reset_pollin (h : Nat)
  | set_pollout (h : Nat)
  | reset_pollout (h : Nat)
deriving DecidableEq, Repr

/-- Runs one reactor operation; `none` is a failed assertion. -/
def poller_op.run : poller_op → epoll_t → Option epoll_t
  | .add_fd fd sink, p => (p.add_fd fd sink).map Prod.fst
  | .rm_fd h, p => p.rm_fd h
  | .set_pollin h, p => p.set_pollin h
  | .reset_pollin h, p => p.reset_pollin h
  | .set_pollout h, p => p.set_pollout h
  | .reset_pollout h, p => p.reset_pollout h

/-- What the dispatch loop and the sinks did, in order. -/
inductive loop_event
  | in_event (h : Nat) (fd : fd_t)
  | out_event (h : Nat) (fd : fd_t)
  | call (op : poller_op)
deriving DecidableEq, Repr

/-- The state threaded through one dispatch pass: the reactor, the log, and
whether no assertion has failed so far. -/
structure loop_state where
  poller : epoll_t
  log : List loop_event
  ok : Bool
deriving DecidableEq, Repr

/-- The sinks, as seen from the reactor: given everything that has happened so
far (the last log entry is the callback being delivered) and the reactor state,
the reactor operations the callback performs. -/
abbrev sinks_t := List loop_event → epoll_t → List poller_op

/-- One `epoll_event` of `ev_buf`: the flags and `data.ptr`. -/
structure epoll_event where
  events : Nat
  ptr : Nat
deriving DecidableEq, Repr

/-- The body of a callback: its reactor operations, in order, until one fails. -/
def run_ops : List poller_op → loop_state → loop_state
  | [], s => s
  | o :: os, s =>
    match o.run s.poller with
    | none => { s with log := s.log ++ [.call o], ok := false }
    | some p => run_ops os { s with poller := p, log := s.log ++ [.call o] }

/-- A call `pe->events->in_event (pe->fd)` or `pe->events->out_event (pe->fd)`. -/
def dispatch (sinks : sinks_t) (e : loop_event) (s : loop_state) : loop_state :=
  run_ops (sinks (s.log ++ [e]) s.poller) { s with log := s.log ++ [e] }

/-- The body of the `for` loop of `epoll_t::loop` for one event record. -/
def loop_record (sinks : sinks_t) (ev : epoll_event) (s : loop_state) : loop_state :=
  match s.poller.heap[ev.ptr]? with
  | none => { s with ok := false }
  | some pe0 =>
  if pe0.fd = retired_fd then s else
  let s1 := if ev.events &&& (EPOLLERR ||| EPOLLHUP) ≠ 0
    then dispatch sinks (.in_event ev.ptr pe0.fd) s else s
  if s1.ok = false then s1 else
  match s1.poller.heap[ev.ptr]? with
  | none => { s1 with ok := false }
  | some pe1 =>
  if pe1.fd = retired_fd then s1 else
  let s2 := if ev.events &&& EPOLLOUT ≠ 0
    then dispatch sinks (.out_event ev.ptr pe1.fd) s1 else s1
  if s2.ok = false then s2 else
  match s2.poller.heap[ev.ptr]? with
  | none => { s2 with ok := false }
  | some pe2 =>
  if pe2.fd = retired_fd then s2 else
  if ev.events &&& EPOLLIN ≠ 0
    then dispatch sinks (.in_event ev.ptr pe2.fd) s2 else s2

/-- The `for (int i = 0; i < n; i ++)` loop over one batch of event records. -/
def loop_batch (sinks : sinks_t) : List epoll_event → loop_state → loop_state
  | [], s => s
  | ev :: evs, s =>
    if s.ok then loop_batch sinks evs (loop_record sinks ev s) else s

/-- Destroying the retired event sources after the batch: `retired.clear ()`. -/
def destroy_retired (p : epoll_t) : epoll_t :=
  { p with retired := [] }

/-! ## stream_engine.cpp: the socket wrappers -/

def EINTR : Nat := 4
def EAGAIN : Nat := 11
def EWOULDBLOCK : Nat := 11
def EPIPE : Nat := 32
def ECONNRESET : Nat := 104
def ENOTCONN : Nat := 107
def ETIMEDOUT : Nat := 110
def ECONNREFUSED : Nat := 111
def EHOSTUNREACH : Nat := 113

/-- Conversion to `int`: reduction into `[-2 ^ 31, 2 ^ 31)`. -/
def to_int (n : Int) : Int :=
  (n + 2147483648) % 4294967296 - 2147483648

/-- Conversion to `size_t`: reduction modulo `2 ^ 64`. -/
def to_size_t (n : Int) : Nat :=
  (n % 18446744073709551616).toNat

/-- The value `(size_t) -1`. -/
def SIZE_MAX : Nat := 18446744073709551615

/-- `stream_engine_t::write` (POSIX branch) from the point where `send` has
returned `nbytes` and left `errno`; `none` is the failed `errno_assert`. -/
def write (nbytes : Int) (errno : Nat) : Option Int :=
  if nbytes = -1 ∧ (errno = EAGAIN ∨ errno = EWOULDBLOCK ∨ errno = EINTR) then
    some 0
  else if nbytes = -1 ∧ (errno = ECONNRESET ∨ errno = EPIPE ∨ errno = ETIMEDOUT) then
    some (-1)
  else if nbytes = -1 then
    none
  else
    some (to_int nbytes)

/-- `stream_engine_t::read` (POSIX branch) from the point where `recv` has
returned `nbytes` and left `errno`; `none` is the failed `errno_assert`. -/
def read (nbytes : Int) (errno : Nat) : Option Int :=
  if nbytes = -1 ∧ (errno = EAGAIN ∨ errno = EWOULDBLOCK ∨ errno = EINTR) then
    some 0
  else if nbytes = -1 ∧ (errno = ECONNRESET ∨ errno = ECONNREFUSED ∨
      errno = ETIMEDOUT ∨ errno = EHOSTUNREACH ∨ errno = ENOTCONN) then
    some (-1)
  else if nbytes = -1 then
    none
  else if nbytes = 0 then
    some (-1)
  else
    some (to_int nbytes)

/-- What one `recv` call did: it failed with an errno, or it stored `data` in
the buffer and returned its length. -/
inductive recv_t
  | fail (errno : Nat)
  | ok (data : List Nat)
deriving DecidableEq, Repr

def recv_t.nbytes : recv_t → Int
  | .fail _ => -1
  | .ok data => data.length

def recv_t.errno : recv_t → Nat
  | .fail e => e
  | .ok _ => 0

def recv_t.data : recv_t → List Nat
  | .fail _ => []
  | .ok data => data

/-- What one `send` call did: it failed with an errno, or it took `n` bytes. -/
inductive send_t
  | fail (errno : Nat)
  | ok (n : Nat)
deriving DecidableEq, Repr

def send_t.nbytes : send_t → Int
  | .fail _ => -1
  | .ok n => n

def send_t.errno : send_t → Nat
  | .fail e => e
  | .ok _ => 0

/-! ## stream_engine.cpp: the engine -/

/-- The one option the modelled functions consult. -/
structure options_t where
  legacy_protocol : Bool
deriving DecidableEq, Repr

/-- The members of `stream_engine_t`. Pointers into codec memory (`inpos`,
`outpos`) are offsets; `header_pos` is an offset into `in_header`; a session
pointer is `none` for `NULL`. -/
structure stream_engine_t where
  s : fd_t
  inpos : Nat
  insize : Nat
  decoder_session : Option Nat
  outpos : Nat
  outsize : Nat
  encoder_session : Option Nat
  session : Option Nat
  leftover_session : Option Nat
  options : options_t
  plugged : Bool
  handle : Nat
  in_header : List Nat
  out_header : List Nat
  desired_header : List Nat
  header_pos : Nat
  header_remaining : Nat
  header_received : Bool
  header_sent : Bool
deriving DecidableEq, Repr

/-- The constructor's member initialisers. `uninit` is the content of the
uninitialised header arrays (its length is `sizeof in_header`); `sp_out` and
`sp_desired` are what `sp_get_header` writes for the engine's own role and for
the complementary role. -/
def stream_engine_t.create (fd_ : fd_t) (options_ : options_t)
    (uninit sp_out sp_desired : List Nat) : stream_engine_t :=
  { s := fd_
    inpos := 0
    insize := 0
    decoder_session := none
    outpos := 0
    outsize := 0
    encoder_session := none
    session := none
    leftover_session := none
    options := options_
    plugged := false
    handle := 0
    in_header := uninit
    out_header := if options_.legacy_protocol then uninit else sp_out
    desired_header := if options_.legacy_protocol then uninit else sp_desired
    header_pos := 0
    header_remaining := uninit.length
    header_received := false
    header_sent := false }

/-- Calls made by the engine, in order. -/
inductive event
  | recv_header (pos size : Nat)
  | recv (pos size : Nat)
  | send_header (size : Nat)
  | send (pos size : Nat)
  | get_buffer
  | process_buffer (pos size : Nat)
  | get_data
  | flush
  | leftover_flush
  | detach
  | error
  | delete_this
  | poller (op : poller_op)
deriving DecidableEq, Repr

/-- Whether the engine is still running, has destroyed itself, or the process
has stopped on a failed assertion. -/
inductive status_t
  | running
  | deleted
  | aborted
deriving DecidableEq, Repr

/-- The engine `self`, the reactor it is plugged into, the calls made so far
and the run status. -/
structure world where
  self : Nat
  engine : stream_engine_t
  poller : epoll_t
  log : List event
  status : status_t
deriving DecidableEq, Repr

/-- A failed `xs_assert` / `errno_assert`. -/
def world.abort (w : world) : world :=
  { w with status := .aborted }

def world.record (w : world) (ev : event) : world :=
  { w with log := w.log ++ [ev] }

/-- A call of a reactor operation through `io_object_t`. -/
def call_poller (op : poller_op) (w : world) : world :=
  if w.status ≠ .running then w else
  match op.run w.poller with
  | none => (w.record (.poller op)).abort
  | some p => { w.record (.poller op) with poller := p }

/-- `stream_engine_t::unplug`. -/
def unplug (w : world) : world :=
  if w.status ≠ .running then w else
  if w.engine.plugged = false then w.abort else
  let w1 := call_poller (.rm_fd w.engine.handle)
    { w with engine := { w.engine with plugged := false } }
  if w1.status ≠ .running then w1 else
  { w1 with engine := { w1.engine with
      encoder_session := none
      decoder_session := none
      leftover_session := w1.engine.session
      session := none } }

/-- `stream_engine_t::error`. -/
def error (w : world) : world :=
  if w.status ≠ .running then w else
  let w0 := w.record .error
  if w0.engine.session = none then w0.abort else
  let w1 := unplug (w0.record .detach)
  if w1.status ≠ .running then w1 else
  { w1.record .delete_this with status := .deleted }

/-- A callback into codec or session that may, while it runs, have the engine
unplugged by its owner (the case the source tests with `!plugged`). -/
def reenter (unplugs : Bool) (w : world) : world :=
  if unplugs then unplug w else w

/-- The answers the environment gives during one `in_event` call. -/
structure in_env where
  header_recv : Nat → recv_t
  get_buffer : Nat × Nat
  data_recv : Nat → recv_t
  process_buffer : Nat → Nat → Nat
  process_unplugs : Bool
  flush_unplugs : Bool

/-- Storing `data` at offset `pos` of a byte array. -/
def store (buf : List Nat) (pos : Nat) (data : List Nat) : List Nat :=
  buf.take pos ++ data ++ buf.drop (pos + data.length)

/-- The test `memcmp (a, b, n) != 0`. -/
def memcmp_ne (a b : List Nat) (n : Nat) : Bool :=
  a.take n != b.take n

/-- The greeting part of `in_event` (the `if` at lines 172-198). The flag
says whether control falls through to the data part. -/
def in_event_header (env : in_env) (w : world) : world × Bool :=
  if w.engine.options.legacy_protocol = false ∧ w.engine.header_received = false then
    let e := w.engine
    let r := env.header_recv e.header_remaining
    let w1 := w.record (.recv_header e.header_pos e.header_remaining)
    match read r.nbytes r.errno with
    | none => (w1.abort, false)
    | some hbytes =>
      if hbytes = -1 then (error w1, false) else
      let e1 := { e with
        in_header := store e.in_header e.header_pos r.data
        header_remaining := to_size_t (e.header_remaining - hbytes)
        header_pos := (e.header_pos + hbytes).toNat }
      if e1.header_remaining ≠ 0 then ({ w1 with engine := e1 }, false) else
      if memcmp_ne e1.in_header e1.desired_header e1.in_header.length then
        (error { w1 with engine := e1 }, false)
      else
        ({ w1 with engine := { e1 with header_received := true } }, true)
  else (w, true)

/-- The refill part of `in_event` (the `if (!insize)` at lines 201-215). The
flag is `disconnection`. -/
def in_event_fill (env : in_env) (w : world) : world × Bool :=
  if w.engine.insize = 0 then
    let pos := env.get_buffer.1
    let size := env.get_buffer.2
    let r := env.data_recv size
    let w1 := (w.record .get_buffer).record (.recv pos size)
    match read r.nbytes r.errno with
    | none => (w1.abort, false)
    | some n =>
      if to_size_t n = SIZE_MAX then
        ({ w1 with engine := { w1.engine with inpos := pos, insize := 0 } }, true)
      else
        ({ w1 with engine := { w1.engine with inpos := pos, insize := to_size_t n } }, false)
  else (w, false)

/-- The decoding part of `in_event` (lines 218-236), entered with the current
value of `disconnection`, which it returns updated. -/
def in_event_process (env : in_env) (disconnection : Bool) (w : world) : world × Bool :=
  let pos := w.engine.inpos
  let size := w.engine.insize
  let processed := env.process_buffer pos size % 18446744073709551616
  let w1 := reenter env.process_unplugs (w.record (.process_buffer pos size))
  if w1.status ≠ .running then (w1, disconnection) else
  if processed = SIZE_MAX then (w1, true) else
  let w2 := if processed < size ∧ w1.engine.plugged = true
    then call_poller (.reset_pollin w1.engine.handle) w1 else w1
  ({ w2 with engine := { w2.engine with
      inpos := pos + processed
      insize := (size + 18446744073709551616 - processed) % 18446744073709551616 } },
    disconnection)

/-- The call `leftover_session->flush ()` or `session->flush ()` of `in_event`
(lines 240-245). -/
def flush_session (env : in_env) (w : world) : world :=
  if w.engine.plugged = false then
    if w.engine.leftover_session = none then w.abort
    else reenter env.flush_unplugs (w.record .leftover_flush)
  else
    if w.engine.session = none then w.abort
    else reenter env.flush_unplugs (w.record .flush)

/-- The closing `if (session && disconnection) error ();` of `in_event`. -/
def report_disconnection (disconnection : Bool) (w : world) : world :=
  if w.status ≠ .running then w else
  if w.engine.session ≠ none ∧ disconnection = true then error w else w

/-- The flushing part of `in_event` (lines 240-248). -/
def in_event_flush (env : in_env) (disconnection : Bool) (w : world) : world :=
  if w.status ≠ .running then w else
  report_disconnection disconnection (flush_session env w)

/-- `stream_engine_t::in_event`. -/
def in_event (env : in_env) (w : world) : world :=
  if w.status ≠ .running then w else
  let hdr := in_event_header env w
  if hdr.2 = false then hdr.1 else
  let fill := in_event_fill env hdr.1
  if fill.1.status ≠ .running then fill.1 else
  let proc := in_event_process env fill.2 fill.1
  in_event_flush env proc.2 proc.1

/-- The answers the environment gives during one `out_event` call. -/
structure out_env where
  header_send : Nat → send_t
  get_data : Nat × Nat × Bool
  get_data_unplugs : Bool
  data_send : Nat → send_t

/-- The greeting part of `out_event` (lines 256-267). The flag says whether
control falls through. -/
def out_event_header (env : out_env) (w : world) : world × Bool :=
  if w.engine.options.legacy_protocol = false ∧ w.engine.header_sent = false then
    let size := w.engine.out_header.length
    let r := env.header_send size
    let w1 := w.record (.send_header size)
    match write r.nbytes r.errno with
    | none => (w1.abort, false)
    | some hbytes =>
      if to_size_t hbytes ≠ size then (error w1, false) else
      ({ w1 with engine := { w1.engine with header_sent := true } }, true)
  else (w, true)

/-- The final part of `out_event` (lines 294-308), entered with the current
value of `more_data`. -/
def out_event_write (env : out_env) (more_data : Bool) (w : world) : world :=
  if w.status ≠ .running then w else
  let pos := w.engine.outpos
  let size := w.engine.outsize
  let r := env.data_send size
  let w1 := w.record (.send pos size)
  match write r.nbytes r.errno with
  | none => w1.abort
  | some nbytes =>
    if nbytes = -1 then error w1 else
    let e1 := { w1.engine with
      outpos := (pos + nbytes).toNat
      outsize := to_size_t (size - nbytes) }
    let w2 := { w1 with engine := e1 }
    if more_data = false ∧ e1.outsize = 0
      then call_poller (.reset_pollout e1.handle) w2 else w2

/-- `stream_engine_t::out_event`. -/
def out_event (env : out_env) (w : world) : world :=
  if w.status ≠ .running then w else
  let hdr := out_event_header env w
  if hdr.2 = false then hdr.1 else
  let w1 := hdr.1
  if w1.engine.outsize = 0 then
    let w2 := reenter env.get_data_unplugs
      ({ w1 with engine := { w1.engine with
          outpos := env.get_data.1
          outsize := env.get_data.2.1 } }.record .get_data)
    if w2.status ≠ .running then w2 else
    if w2.engine.plugged = false then
      if w2.engine.leftover_session = none then w2.abort
      else w2.record .leftover_flush
    else if w2.engine.outsize = 0 then
      call_poller (.reset_pollout w2.engine.handle) w2
    else out_event_write env env.get_data.2.2 w2
  else out_event_write env true w1

/-- `stream_engine_t::activate_out`. -/
def activate_out (env : out_env) (w : world) : world :=
  out_event env (call_poller (.set_pollout w.engine.handle) w)

/-- `stream_engine_t::activate_in`. -/
def activate_in (env : in_env) (w : world) : world :=
  in_event env (call_poller (.set_pollin w.engine.handle) w)

/-- `stream_engine_t::plug` up to, and not including, its closing
`in_event (s)`. -/
def plug_register (session_ : Option Nat) (w : world) : world :=
  if w.status ≠ .running then w else
  if w.engine.plugged = true then w.abort else
  let e1 := { w.engine with plugged := true, leftover_session := none }
  if e1.session ≠ none then { w with engine := e1 }.abort else
  if session_ = none then { w with engine := e1 }.abort else
  let e2 := { e1 with
    encoder_session := session_
    decoder_session := session_
    session := session_ }
  let w1 := call_poller (.add_fd e2.s w.self)
    { w with engine := { e2 with handle := w.poller.heap.length } }
  call_poller (.set_pollout w1.engine.handle)
    (call_poller (.set_pollin w1.engine.handle) w1)

/-- `stream_engine_t::plug`. -/
def plug (session_ : Option Nat) (env : in_env) (w : world) : world :=
  in_event env (plug_register session_ w)

/-- A run of `in_event` calls, one per environment answer. -/
def in_events : List in_env → world → world
  | [], w => w
  | env :: envs, w => in_events envs (in_event env w)

/-! ## Vocabulary of the statements -/

/-- The entry behind handle `h` exists and carries the retired sentinel. -/
def retired_at (p : epoll_t) (h : Nat) : Prop :=
  ∃ pe, p.heap[h]? = some pe ∧ pe.fd = retired_fd

/-- The log entry `e` is a callback delivered to the entry behind `h`. -/
def dispatched_to (e : loop_event) (h : Nat) : Prop :=
  ∃ fd, e = .in_event h fd ∨ e = .out_event h fd

/-- No callback is delivered to an entry after `rm_fd` was called on it. -/
def quiet_after_rm (log : List loop_event) : Prop :=
  ∀ pre post h, log = pre ++ .call (.rm_fd h) :: post →
    ∀ e ∈ post, ¬ dispatched_to e h

/-- The log segment `l` is one delivery of the callback `e` followed by the
reactor operations performed from inside it. -/
def callback_run (e : loop_event) (l : List loop_event) : Prop :=
  ∃ ops : List poller_op, l = e :: ops.map loop_event.call

/-- An empty reactor. -/
def idle_poller : epoll_t :=
  { heap := [], interest := [], retired := [], load := 0 }

/-- The greeting of the initiator in the scenarios of the specification. -/
def initiator_greeting : List Nat := [1, 0, 0, 0, 1, 0, 0, 0]

/-- The greeting of the responder in the scenarios of the specification. -/
def responder_greeting : List Nat := [1, 0, 0, 0, 2, 0, 0, 0]

/-- A freshly constructed initiator engine on fd `7`, next to an idle reactor. -/
def fresh_world (legacy : Bool) : world :=
  { self := 0
    engine := stream_engine_t.create 7 ⟨legacy⟩ (List.replicate 8 0)
      initiator_greeting responder_greeting
    poller := idle_poller
    log := []
    status := .running }

/-- An environment in which the socket has nothing to read, the decoder hands
out the buffer `(100, 8192)` and consumes whatever it is offered, and nobody
unplugs the engine. -/
def calm_in : in_env :=
  { header_recv := fun _ => .fail EAGAIN
    get_buffer := (100, 8192)
    data_recv := fun _ => .fail EAGAIN
    process_buffer := fun _ size => size
    process_unplugs := false
    flush_unplugs := false }

/-- An environment in which the encoder has nothing to send and the socket
takes every byte offered. -/
def calm_out : out_env :=
  { header_send := fun size => .ok size
    get_data := (0, 0, false)
    get_data_unplugs := false
    data_send := fun size => .ok size }

/-- The greeting part of the engine state is the same in `a` and `b`. -/
def same_greeting (a b : stream_engine_t) : Prop :=
  a.options = b.options ∧ a.in_header = b.in_header ∧
    a.desired_header = b.desired_header ∧ a.header_pos = b.header_pos ∧
    a.header_remaining = b.header_remaining ∧ a.header_received = b.header_received

/-- The socket never delivers more bytes than `recv` was asked for. -/
def in_env.polite (env : in_env) : Prop :=
  ∀ size, (env.header_recv size).data.length ≤ size ∧ (env.data_recv size).data.length ≤ size

/-- What the greeting ingress maintains for an engine with a greeting buffer of
`H` bytes that expects the greeting `D`: the read position and the remaining
count split the buffer until the greeting has been accepted, and an accepted
greeting is complete and equal to the expected one. -/
def greeting_inv (H : Nat) (D : List Nat) (e : stream_engine_t) : Prop :=
  e.options.legacy_protocol = false ∧ e.in_header.length = H ∧ e.desired_header = D ∧
    (e.header_received = false → e.header_pos + e.header_remaining = H) ∧
    (e.header_received = true → e.header_remaining = 0 ∧ e.in_header = D.take H)

/-- The engine is running and plugged: it has a session, and its handle points
to a poll entry that carries the engine's socket and is registered with the
kernel. -/
def plugged_in (w : world) (pe : poll_entry_t) : Prop :=
  w.status = .running ∧ w.engine.plugged = true ∧ w.engine.session ≠ none ∧
    w.poller.heap[w.engine.handle]? = some pe ∧ pe.fd = w.engine.s ∧
    pe.fd ∈ w.poller.interest

/-- The reactor after a successful `rm_fd` on the entry `pe` behind `h`. -/
def removed (p : epoll_t) (h : Nat) (pe : poll_entry_t) : epoll_t :=
  { heap := p.heap.set h { pe with fd := retired_fd }
    interest := p.interest.erase pe.fd
    retired := p.retired ++ [h]
    load := p.load + -1 }

/-- The reactor after a successful mask update `f` on the entry `pe` behind `h`. -/
def masked (p : epoll_t) (h : Nat) (pe : poll_entry_t) (f : Nat → Nat) : epoll_t :=
  { p with heap := p.heap.set h { pe with ev_events := f pe.ev_events } }

/-- The engine after `unplug`. -/
def unplugged (e : stream_engine_t) : stream_engine_t :=
  { e with
    plugged := false
    encoder_session := none
    decoder_session := none
    leftover_session := e.session
    session := none }

/-- An environment like `calm_in` in which the socket holds `bytes` while the
greeting is being read. -/
def greeting_feed (bytes : List Nat) : in_env :=
  { calm_in with header_recv := fun size => .ok (bytes.take size) }

/-- The fresh engine once `plug` has registered it with the idle reactor (that
is, before the `in_event` call that ends `plug`). -/
def registered_world (legacy : Bool) : world :=
  plug_register (some 1) (fresh_world legacy)

/-- A log entry made by a reactor call or by a flush of the session. -/
def quiet_event (e : event) : Prop :=
  (∃ op, e = .poller op) ∨ e = .flush ∨ e = .leftover_flush

/-- A log entry that may follow the decoder call inside one `in_event`. -/
def closing_event (e : event) : Prop :=
  quiet_event e ∨ e = .error ∨ e = .detach ∨ e = .delete_this

/-- What the socket holds for one `in_event` call of the greeting scenario:
nothing (the read would block) or a chunk of bytes. -/
def arrival (a : Option (List Nat)) : recv_t :=
  match a with
  | none => .fail EAGAIN
  | some c => .ok c

/-- The environment `env` with the greeting read answered by the arrival `a`. -/
def with_arrival (a : Option (List Nat)) (env : in_env) : in_env :=
  { env with header_recv := fun _ => arrival a }

/-- One `in_event` call per arrival. -/
def feed (script : List (Option (List Nat) × in_env)) (w : world) : world :=
  in_events (script.map (fun x => with_arrival x.1 x.2)) w

/-- The state of the greeting ingress when the bytes `done` have been stored
and the bytes `rest` are still expected: the engine runs, has not accepted the
greeting, and has not called `error ()`. -/
def chunk_inv (done rest : List Nat) (w : world) : Prop :=
  w.status = .running ∧ w.engine.options.legacy_protocol = false ∧
    w.engine.header_received = false ∧ w.engine.desired_header = done ++ rest ∧
    w.engine.header_pos = done.length ∧ w.engine.header_remaining = rest.length ∧
    (∃ junk, w.engine.in_header = done ++ junk ∧ junk.length = rest.length) ∧
    event.error ∉ w.log

/-- The environment `env` with a decoder that consumes `c` bytes of whatever it
is offered. -/
def decoding (c : Nat) (env : in_env) : in_env :=
  { env with process_buffer := fun _ _ => c }

/-- The first seven bytes of the responder's greeting arriving one byte per
call, with one call in which the read would block. -/
def one_byte_arrivals : List (Option (List Nat) × in_env) :=
  [(some [1], calm_in), (none, calm_in), (some [0], calm_in), (some [0], calm_in),
    (some [0], calm_in), (some [2], calm_in), (some [0], calm_in), (some [0], calm_in)]

/-- An environment like `calm_in` in which the peer has reset the connection. -/
def peer_reset : in_env :=
  { calm_in with data_recv := fun _ => .fail ECONNRESET }

/-- The mask update of `reset_pollin`. -/
def clear_in (m : Nat) : Nat := m &&& (4294967295 - EPOLLIN)

/-- The world right after the decoder call of `in_event` consumed `c` of the
`w.engine.insize` bytes offered by the plugged engine of `w` (entry `pe`), and
the session was flushed: the cursor has advanced, readable interest is cleared
exactly when bytes were left over, and the log has grown accordingly. -/
def decoded (w : world) (pe : poll_entry_t) (c : Nat) : world :=
  { w with
    engine := { w.engine with
      inpos := w.engine.inpos + c
      insize := w.engine.insize - c }
    poller := if c < w.engine.insize
      then masked w.poller w.engine.handle pe clear_in else w.poller
    log := w.log ++ .process_buffer w.engine.inpos w.engine.insize ::
      ((if c < w.engine.insize then [.poller (.reset_pollin w.engine.handle)] else [])
        ++ [.flush]) }

/-- The world after `error ()` went through on the plugged engine of `w`
(entry `pe`). -/
def failed (w : world) (pe : poll_entry_t) : world :=
  { w with
    engine := unplugged w.engine
    poller := removed w.poller w.engine.handle pe
    log := w.log ++ [.error, .detach, .poller (.rm_fd w.engine.handle), .delete_this]
    status := .deleted }

/-- The backpressure scenario: ten bytes are read and the decoder consumes
three of them. -/
def backlog : in_env :=
  decoding 3 { calm_in with data_recv := fun _ => .ok [1, 2, 3, 4, 5, 6, 7, 8, 9, 10] }

/-- The reactor `p` differs from `q` at most in the armed mask of the entry
behind `h`. -/
def kept_poller (h : Nat) (p q : epoll_t) : Prop :=
  p.interest = q.interest ∧ p.load = q.load ∧ p.retired = q.retired ∧
    (p.heap = q.heap ∨
      ∃ pe m, q.heap[h]? = some pe ∧ p.heap = q.heap.set h { pe with ev_events := m })

/-- If the engine of `r` is running and plugged, then it was so in `w`, with the
same handle and socket, and the reactor has changed at most in the armed mask
of the engine's own entry. -/
def kept (r w : world) : Prop :=
  r.status = .running → r.engine.plugged = true →
    w.status = .running ∧ w.engine.plugged = true ∧ r.self = w.self ∧
      r.engine.handle = w.engine.handle ∧ r.engine.s = w.engine.s ∧
      kept_poller w.engine.handle r.poller w.poller

/-- The mask update of `reset_pollout`. -/
def clear_out (m : Nat) : Nat := m &&& (4294967295 - EPOLLOUT)

/-- The world at the point where `out_event` reaches its socket write: when the
out-buffer was empty the encoder has just filled the cursor (and `get_data` is
in the log), otherwise nothing has happened yet. -/
def offered_out (env : out_env) (w : world) : world :=
  if w.engine.outsize = 0 then
    { w with
      engine := { w.engine with outpos := env.get_data.1, outsize := env.get_data.2.1 }
      log := w.log ++ [.get_data] }
  else w

/-- The value of `more_data` at the point of the socket write: the encoder's
hint when `get_data` was called, `true` when the buffer was left over. -/
def more_data_at_write (env : out_env) (w : world) : Bool :=
  if w.engine.outsize = 0 then env.get_data.2.2 else true

/-- The world after the socket write of `out_event` took `k` bytes of the
out-buffer of the plugged engine of `w` (entry `pe`). -/
def written (w : world) (pe : poll_entry_t) (more_data : Bool) (k : Nat) : world :=
  { w with
    engine := { w.engine with
      outpos := w.engine.outpos + k
      outsize := w.engine.outsize - k }
    poller := if more_data = false ∧ w.engine.outsize - k = 0
      then masked w.poller w.engine.handle pe clear_out else w.poller
    log := w.log ++ .send w.engine.outpos w.engine.outsize ::
      (if more_data = false ∧ w.engine.outsize - k = 0
        then [.poller (.reset_pollout w.engine.handle)] else []) }

/-- An environment in which the encoder hands out its last eight bytes, at
offset `50`, and the socket takes every byte offered. -/
def drain_out : out_env :=
  { calm_out with get_data := (50, 8, false) }

/-- A log entry made while `in_event` flushes the session and, possibly, tears
the engine down: a flush, the steps of `error ()`, or the `rm_fd` of an
`unplug`. -/
def teardown_event (e : event) : Prop :=
  e = .flush ∨ e = .leftover_flush ∨ e = .error ∨ e = .detach ∨ e = .delete_this ∨
    ∃ h, e = .poller (.rm_fd h)

/-- The reactors `p` and `q` hold the same armed mask and the same sink in every
poll entry. -/
def same_masks (p q : epoll_t) : Prop :=
  p.heap.map (fun e => (e.ev_events, e.events))
    = q.heap.map (fun e => (e.ev_events, e.events))

/-- From `w` to `r` the input cursor and every armed mask are unchanged, and
only flush and teardown entries were logged. -/
def flushed (r w : world) : Prop :=
  r.engine.inpos = w.engine.inpos ∧ r.engine.insize = w.engine.insize ∧
    same_masks r.poller w.poller ∧
    ∃ tail, r.log = w.log ++ tail ∧ ∀ e ∈ tail, teardown_event e

/-- The world at the point where `in_event` calls the decoder: after the
greeting part and the refill of an empty in-buffer. -/
def offered_in (env : in_env) (w : world) : world :=
  (in_event_fill env w).1

/-- The count the decoder returns for the buffer it is offered. -/
def consumed (env : in_env) (w : world) : Nat :=
  env.process_buffer (offered_in env w).engine.inpos (offered_in env w).engine.insize

/-- The backpressure scenario in which, in addition, the owner of the engine
unplugs it while the decoder runs. -/
def handover : in_env :=
  { backlog with process_unplugs := true }

/-- An example sink: it removes entry `0` from inside every `in_event`
delivered to entry `0`, and does nothing otherwise. -/
def self_removing_sink : sinks_t := fun log _ =>
  match log.getLast? with
  | some (.in_event 0 _) => [.rm_fd 0]
  | _ => []

/-- An example reactor with two registered entries, fds `5` and `6`. -/
def two_entries : epoll_t :=
  { heap := [⟨5, 5, 0⟩, ⟨6, 5, 1⟩], interest := [5, 6], retired := [], load := 2 }

/-- A fresh legacy engine on fd `7` next to a reactor that already serves the
fds `5` and `6`. -/
def busy_world : world :=
  { fresh_world true with poller := two_entries }

/-- One of the three guarded calls of the loop body: look at `pe->fd`, skip a
retired entry, deliver the callback when the flag is set. -/
def loop_phase (sinks : sinks_t) (flagged : Bool) (mk : fd_t → loop_event) (ptr : Nat)
    (s : loop_state) : loop_state :=
  match s.poller.heap[ptr]? with
  | none => { s with ok := false }
  | some pe =>
    if pe.fd = retired_fd then s else
    if flagged then dispatch sinks (mk pe.fd) s else s

/-- A guarded call that is reached only while no assertion has failed. -/
def loop_next (sinks : sinks_t) (flagged : Bool) (mk : fd_t → loop_event) (ptr : Nat)
    (s : loop_state) : loop_state :=
  if s.ok = false then s else loop_phase sinks flagged mk ptr s

/-- What the dispatch loop maintains: the log is quiet after every `rm_fd`, and
while no assertion has failed every entry `rm_fd` was called on is retired. -/
def loop_inv (s : loop_state) : Prop :=
  quiet_after_rm s.log ∧
    (s.ok = true → ∀ h, loop_event.call (.rm_fd h) ∈ s.log → retired_at s.poller h)

end xs

namespace xs

/-! ## The dispatch loop -/

theorem run_ops_log (ops : List poller_op) (s : loop_state) :
    ∃ done : List poller_op, (run_ops ops s).log = s.log ++ done.map loop_event.call := by
  induction ops generalizing s with
  | nil => exact ⟨[], by simp [run_ops]⟩
  | cons o os ih =>
    cases h : o.run s.poller with
    | none => exact ⟨[o], by simp [run_ops, h]⟩
    | some p =>
      obtain ⟨d, hd⟩ := ih { s with poller := p, log := s.log ++ [.call o] }
      exact ⟨o :: d, by simp [run_ops, h, hd]⟩

theorem dispatch_log (sinks : sinks_t) (e : loop_event) (s : loop_state) :
    ∃ l, callback_run e l ∧ (dispatch sinks e s).log = s.log ++ l := by
  obtain ⟨d, hd⟩ := run_ops_log (sinks (s.log ++ [e]) s.poller) { s with log := s.log ++ [e] }
  exact ⟨e :: d.map loop_event.call, ⟨d, rfl⟩, by simp [dispatch, hd]⟩


theorem loop_record_eq (sinks : sinks_t) (ev : epoll_event) (s : loop_state) :
    loop_record sinks ev s =
      loop_next sinks (decide (ev.events &&& EPOLLIN ≠ 0)) (loop_event.in_event ev.ptr) ev.ptr
        (loop_next sinks (decide (ev.events &&& EPOLLOUT ≠ 0)) (loop_event.out_event ev.ptr) ev.ptr
          (loop_phase sinks (decide (ev.events &&& (EPOLLERR ||| EPOLLHUP) ≠ 0))
            (loop_event.in_event ev.ptr) ev.ptr s)) := by
  unfold loop_record loop_next loop_phase
  cases h0 : s.poller.heap[ev.ptr]? with
  | none => simp
  | some pe0 =>
    by_cases hr0 : pe0.fd = retired_fd
    · by_cases hok : s.ok = false <;> simp [h0, hr0, hok]
    · by_cases hA : ev.events &&& (EPOLLERR ||| EPOLLHUP) ≠ 0
      · simp only [hr0, hA, if_false, if_true, decide_True, ne_eq, not_false_eq_true]
        generalize dispatch sinks (loop_event.in_event ev.ptr pe0.fd) s = s1
        by_cases hok1 : s1.ok = false
        · simp [hok1]
        · cases h1 : s1.poller.heap[ev.ptr]? with
          | none => simp [hok1]
          | some pe1 =>
            by_cases hr1 : pe1.fd = retired_fd
            · simp [h1, hr1, hok1]
            · by_cases hB : ev.events &&& EPOLLOUT ≠ 0 <;> simp [hB, hok1, h1, hr1]
      · by_cases hok1 : s.ok = false
        · simp [hok1, hr0, hA]
        · by_cases hB : ev.events &&& EPOLLOUT ≠ 0 <;> simp [hA, hB, hok1, h0, hr0]

theorem loop_phase_log (sinks : sinks_t) (fl : Bool) (mk : fd_t → loop_event) (ptr : Nat)
    (s : loop_state) :
    ∃ l, (loop_phase sinks fl mk ptr s).log = s.log ++ l ∧
      (l = [] ∨ (fl = true ∧ ∃ pe, s.poller.heap[ptr]? = some pe ∧ pe.fd ≠ retired_fd ∧
        callback_run (mk pe.fd) l)) := by
  unfold loop_phase
  cases h : s.poller.heap[ptr]? with
  | none => exact ⟨[], by simp, Or.inl rfl⟩
  | some pe =>
    by_cases hr : pe.fd = retired_fd
    · exact ⟨[], by simp [hr], Or.inl rfl⟩
    · cases fl with
      | false => exact ⟨[], by simp [hr], Or.inl rfl⟩
      | true =>
        obtain ⟨l, hl, hlog⟩ := dispatch_log sinks (mk pe.fd) s
        exact ⟨l, by simp [hr, hlog], Or.inr ⟨rfl, pe, rfl, hr, hl⟩⟩

theorem loop_next_log (sinks : sinks_t) (fl : Bool) (mk : fd_t → loop_event) (ptr : Nat)
    (s : loop_state) :
    ∃ l, (loop_next sinks fl mk ptr s).log = s.log ++ l ∧
      (l = [] ∨ (fl = true ∧ ∃ pe, s.poller.heap[ptr]? = some pe ∧ pe.fd ≠ retired_fd ∧
        callback_run (mk pe.fd) l)) := by
  unfold loop_next
  by_cases hok : s.ok = false
  · exact ⟨[], by simp [hok], Or.inl rfl⟩
  · simpa [hok] using loop_phase_log sinks fl mk ptr s

/-- C9 (as amended): the callbacks delivered for one event record of a
non-retired entry come in three consecutive segments: first the `in_event`
reporting EPOLLERR/EPOLLHUP (present exactly when one of those flags is set)
with the operations done inside it, then at most one `out_event` (only when
EPOLLOUT is set), then at most one `in_event` for EPOLLIN. So `out_event`
precedes the `in_event` delivered for EPOLLIN and follows the one delivered for
an error or hangup. -/
theorem loop_record_dispatch_order (sinks : sinks_t) (ev : epoll_event) (s : loop_state)
    (pe : poll_entry_t) (hpe : s.poller.heap[ev.ptr]? = some pe)
    (hlive : pe.fd ≠ retired_fd) :
    ∃ A B C : List loop_event,
      (loop_record sinks ev s).log = s.log ++ A ++ B ++ C ∧
      (if ev.events &&& (EPOLLERR ||| EPOLLHUP) ≠ 0
        then callback_run (.in_event ev.ptr pe.fd) A else A = []) ∧
      (B = [] ∨ (ev.events &&& EPOLLOUT ≠ 0 ∧ ∃ fd, callback_run (.out_event ev.ptr fd) B)) ∧
      (C = [] ∨ (ev.events &&& EPOLLIN ≠ 0 ∧ ∃ fd, callback_run (.in_event ev.ptr fd) C)) := by
  rw [loop_record_eq]
  obtain ⟨A, hA, hA2⟩ := loop_phase_log sinks (decide (ev.events &&& (EPOLLERR ||| EPOLLHUP) ≠ 0))
    (loop_event.in_event ev.ptr) ev.ptr s
  generalize hs1 : loop_phase sinks (decide (ev.events &&& (EPOLLERR ||| EPOLLHUP) ≠ 0))
    (loop_event.in_event ev.ptr) ev.ptr s = s1 at hA
  obtain ⟨B, hB, hB2⟩ := loop_next_log sinks (decide (ev.events &&& EPOLLOUT ≠ 0))
    (loop_event.out_event ev.ptr) ev.ptr s1
  generalize loop_next sinks (decide (ev.events &&& EPOLLOUT ≠ 0))
    (loop_event.out_event ev.ptr) ev.ptr s1 = s2 at hB
  obtain ⟨C, hC, hC2⟩ := loop_next_log sinks (decide (ev.events &&& EPOLLIN ≠ 0))
    (loop_event.in_event ev.ptr) ev.ptr s2
  refine ⟨A, B, C, by rw [hC, hB, hA], ?_, ?_, ?_⟩
  · by_cases hf : ev.events &&& (EPOLLERR ||| EPOLLHUP) ≠ 0
    · rw [if_pos hf]
      obtain ⟨l, hl, hlog⟩ := dispatch_log sinks (loop_event.in_event ev.ptr pe.fd) s
      have : s1.log = s.log ++ l := by
        rw [← hs1]; simp [loop_phase, hpe, hlive, hf, hlog]
      rw [hA] at this
      rw [List.append_cancel_left this]
      exact hl
    · rw [if_neg hf]
      have : s1.log = s.log := by
        rw [← hs1]; simp [loop_phase, hpe, hlive, hf]
      rw [hA] at this
      simpa using this
  · rcases hB2 with h | ⟨hfl, pe1, _, _, hrun⟩
    · exact Or.inl h
    · exact Or.inr ⟨by simpa using hfl, pe1.fd, hrun⟩
  · rcases hC2 with h | ⟨hfl, pe2, _, _, hrun⟩
    · exact Or.inl h
    · exact Or.inr ⟨by simpa using hfl, pe2.fd, hrun⟩

/-- C9 (witness): the segments of a record with EPOLLERR, EPOLLOUT and EPOLLIN
set, delivered to a live entry. -/
theorem loop_record_dispatch_order_witness :
    ∃ A B C : List loop_event,
      (loop_record (fun _ _ => []) ⟨13, 0⟩ ⟨⟨[⟨5, 5, 0⟩], [5], [], 1⟩, [], true⟩).log
        = [] ++ A ++ B ++ C ∧
      (if 13 &&& (EPOLLERR ||| EPOLLHUP) ≠ 0
        then callback_run (.in_event 0 5) A else A = []) ∧
      (B = [] ∨ (13 &&& EPOLLOUT ≠ 0 ∧ ∃ fd, callback_run (.out_event 0 fd) B)) ∧
      (C = [] ∨ (13 &&& EPOLLIN ≠ 0 ∧ ∃ fd, callback_run (.in_event 0 fd) C)) :=
  loop_record_dispatch_order (fun _ _ => []) ⟨13, 0⟩ ⟨⟨[⟨5, 5, 0⟩], [5], [], 1⟩, [], true⟩
    ⟨5, 5, 0⟩ rfl (by decide)

/-- C9 (counterexample to the claim as stated): for a record with EPOLLERR and
EPOLLOUT set the loop delivers `in_event` and then `out_event`, so an
`in_event` of the record precedes its `out_event`. -/
theorem loop_record_in_before_out :
    (loop_record (fun _ _ => []) ⟨EPOLLERR ||| EPOLLOUT, 0⟩
        ⟨⟨[⟨5, 5, 0⟩], [5], [], 1⟩, [], true⟩).log
      = [.in_event 0 5, .out_event 0 5] := by
  decide

/-! ### Safe deletion under dispatch -/

theorem set_mask_retired (p q : epoll_t) (k : Nat) (f : Nat → Nat) (h : Nat)
    (hrun : p.set_mask k f = some q) (hret : retired_at p h) : retired_at q h := by
  unfold epoll_t.set_mask at hrun
  obtain ⟨pe, hpe, hfd⟩ := hret
  cases hk : p.heap[k]? with
  | none => simp [hk] at hrun
  | some pk =>
    simp only [hk] at hrun
    split at hrun
    · injection hrun with hq
      subst hq
      by_cases hkh : k = h
      · subst hkh
        rw [hk] at hpe
        injection hpe with hpe
        subst hpe
        have hlt : k < p.heap.length := by
          rcases Nat.lt_or_ge k p.heap.length with hlt | hge
          · exact hlt
          · rw [List.getElem?_eq_none hge] at hk; cases hk
        exact ⟨{ pk with ev_events := f pk.ev_events }, by simp [hlt], hfd⟩
      · exact ⟨pe, by simp [List.getElem?_set_ne hkh, hpe], hfd⟩
    · cases hrun

theorem rm_fd_retired (p q : epoll_t) (k : Nat) (hrun : p.rm_fd k = some q) :
    retired_at q k := by
  unfold epoll_t.rm_fd at hrun
  cases hk : p.heap[k]? with
  | none => simp [hk] at hrun
  | some pk =>
    simp only [hk] at hrun
    cases hd : epoll_ctl_del p.interest pk.fd with
    | none => simp [hd] at hrun
    | some i =>
      simp only [hd] at hrun
      injection hrun with hq
      subst hq
      have hlt : k < p.heap.length := by
        rcases Nat.lt_or_ge k p.heap.length with hlt | hge
        · exact hlt
        · rw [List.getElem?_eq_none hge] at hk; cases hk
      exact ⟨{ pk with fd := retired_fd }, by simp [adjust_load, hlt], rfl⟩

theorem rm_fd_keeps_retired (p q : epoll_t) (k h : Nat) (hrun : p.rm_fd k = some q)
    (hret : retired_at p h) : retired_at q h := by
  by_cases hkh : k = h
  · subst hkh; exact rm_fd_retired p q k hrun
  · unfold epoll_t.rm_fd at hrun
    obtain ⟨pe, hpe, hfd⟩ := hret
    cases hk : p.heap[k]? with
    | none => simp [hk] at hrun
    | some pk =>
      simp only [hk] at hrun
      cases hd : epoll_ctl_del p.interest pk.fd with
      | none => simp [hd] at hrun
      | some i =>
        simp only [hd] at hrun
        injection hrun with hq
        subst hq
        exact ⟨pe, by simp [adjust_load, List.getElem?_set_ne hkh, hpe], hfd⟩

theorem add_fd_keeps_retired (p q : epoll_t) (fd : fd_t) (sink k h : Nat)
    (hrun : p.add_fd fd sink = some (q, k)) (hret : retired_at p h) : retired_at q h := by
  unfold epoll_t.add_fd at hrun
  obtain ⟨pe, hpe, hfd⟩ := hret
  cases hd : epoll_ctl_add p.interest fd with
  | none => simp [hd] at hrun
  | some i =>
    simp only [hd] at hrun
    injection hrun with hq
    injection hq with hq _
    subst hq
    have hlt : h < p.heap.length := by
      rcases Nat.lt_or_ge h p.heap.length with hlt | hge
      · exact hlt
      · rw [List.getElem?_eq_none hge] at hpe; cases hpe
    exact ⟨pe, by simp [adjust_load, List.getElem?_append_left hlt, hpe], hfd⟩

theorem op_run_keeps_retired (o : poller_op) (p q : epoll_t) (h : Nat)
    (hrun : o.run p = some q) (hret : retired_at p h) : retired_at q h := by
  cases o with
  | add_fd fd sink =>
    simp only [poller_op.run] at hrun
    cases ha : p.add_fd fd sink with
    | none => simp [ha] at hrun
    | some r =>
      obtain ⟨q0, k⟩ := r
      simp [ha] at hrun
      subst hrun
      exact add_fd_keeps_retired p q0 fd sink k h ha hret
  | rm_fd k => exact rm_fd_keeps_retired p q k h hrun hret
  | set_pollin k => exact set_mask_retired p q k _ h (by simpa [poller_op.run, epoll_t.set_pollin] using hrun) hret
  | reset_pollin k => exact set_mask_retired p q k _ h (by simpa [poller_op.run, epoll_t.reset_pollin] using hrun) hret
  | set_pollout k => exact set_mask_retired p q k _ h (by simpa [poller_op.run, epoll_t.set_pollout] using hrun) hret
  | reset_pollout k => exact set_mask_retired p q k _ h (by simpa [poller_op.run, epoll_t.reset_pollout] using hrun) hret

theorem quiet_after_rm_snoc (log : List loop_event) (e : loop_event)
    (hq : quiet_after_rm log)
    (he : ∀ h, dispatched_to e h → loop_event.call (.rm_fd h) ∉ log) :
    quiet_after_rm (log ++ [e]) := by
  intro pre post h heq x hx hdisp
  rcases List.eq_nil_or_concat post with hnil | ⟨post0, y, hpost⟩
  · subst hnil; cases hx
  · subst hpost
    have heq2 : log ++ [e] = (pre ++ loop_event.call (.rm_fd h) :: post0) ++ [y] := by
      simpa using heq
    have hlog : log = pre ++ loop_event.call (.rm_fd h) :: post0 :=
      List.append_inj_left' heq2 rfl
    have hey : [e] = [y] := List.append_inj_right' heq2 rfl
    injection hey with hey _
    rcases List.mem_append.mp (by simpa using hx : x ∈ post0 ++ [y]) with hx0 | hxy
    · exact hq pre post0 h hlog x hx0 hdisp
    · have hxe : x = e := by simpa [hey] using hxy
      subst hxe
      exact he h hdisp (by simp [hlog])

theorem run_ops_inv (ops : List poller_op) (s : loop_state) (hinv : loop_inv s) :
    loop_inv (run_ops ops s) := by
  induction ops generalizing s with
  | nil => simpa [run_ops] using hinv
  | cons o os ih =>
    have hquiet : quiet_after_rm (s.log ++ [loop_event.call o]) := by
      apply quiet_after_rm_snoc _ _ hinv.1
      intro h hd
      obtain ⟨fd, hfd | hfd⟩ := hd <;> cases hfd
    cases hrun : o.run s.poller with
    | none =>
      simp only [run_ops, hrun]
      exact ⟨hquiet, by simp⟩
    | some p =>
      simp only [run_ops, hrun]
      apply ih
      refine ⟨hquiet, ?_⟩
      intro hok h hmem
      have hok0 : s.ok = true := hok
      rcases List.mem_append.mp hmem with hold | hnew
      · exact op_run_keeps_retired o s.poller p h hrun (hinv.2 hok0 h hold)
      · have : o = poller_op.rm_fd h := by
          have := List.mem_singleton.mp hnew
          injection this with this
          exact this.symm
        subst this
        exact rm_fd_retired s.poller p h hrun

theorem dispatch_inv (sinks : sinks_t) (e : loop_event) (s : loop_state) (h : Nat)
    (pe : poll_entry_t) (hinv : loop_inv s) (hok : s.ok = true)
    (hpe : s.poller.heap[h]? = some pe) (hlive : pe.fd ≠ retired_fd)
    (hdisp : dispatched_to e h) (he : ∀ k, dispatched_to e k → k = h) :
    loop_inv (dispatch sinks e s) := by
  unfold dispatch
  apply run_ops_inv
  refine ⟨?_, ?_⟩
  · apply quiet_after_rm_snoc _ _ hinv.1
    intro k hk hmem
    have hkh := he k hk
    subst hkh
    obtain ⟨pe1, hpe1, hfd⟩ := hinv.2 hok k hmem
    rw [hpe] at hpe1
    injection hpe1 with hpe1
    subst hpe1
    exact hlive hfd
  · intro _ k hmem
    rcases List.mem_append.mp hmem with hold | hnew
    · exact hinv.2 hok k hold
    · have hek : loop_event.call (poller_op.rm_fd k) = e := List.mem_singleton.mp hnew
      obtain ⟨fd, hfd | hfd⟩ := hdisp <;> rw [hfd] at hek <;> cases hek

theorem loop_phase_inv (sinks : sinks_t) (fl : Bool) (mk : fd_t → loop_event) (ptr : Nat)
    (s : loop_state) (hinv : loop_inv s) (hok : s.ok = true)
    (hmk : ∀ fd, dispatched_to (mk fd) ptr ∧ ∀ k, dispatched_to (mk fd) k → k = ptr) :
    loop_inv (loop_phase sinks fl mk ptr s) := by
  unfold loop_phase
  cases h : s.poller.heap[ptr]? with
  | none => exact ⟨hinv.1, by simp⟩
  | some pe =>
    by_cases hr : pe.fd = retired_fd
    · simpa [hr] using hinv
    · cases fl with
      | false => simpa [hr] using hinv
      | true =>
        simp only [hr, if_false, if_true]
        exact dispatch_inv sinks (mk pe.fd) s ptr pe hinv hok h hr (hmk pe.fd).1 (hmk pe.fd).2

theorem loop_next_inv (sinks : sinks_t) (fl : Bool) (mk : fd_t → loop_event) (ptr : Nat)
    (s : loop_state) (hinv : loop_inv s)
    (hmk : ∀ fd, dispatched_to (mk fd) ptr ∧ ∀ k, dispatched_to (mk fd) k → k = ptr) :
    loop_inv (loop_next sinks fl mk ptr s) := by
  unfold loop_next
  by_cases hok : s.ok = false
  · simpa [hok] using hinv
  · simp only [hok, if_false]
    exact loop_phase_inv sinks fl mk ptr s hinv (by simpa using hok) hmk

theorem in_event_dispatched (ptr : Nat) (fd : fd_t) :
    dispatched_to (loop_event.in_event ptr fd) ptr ∧
      ∀ k, dispatched_to (loop_event.in_event ptr fd) k → k = ptr := by
  refine ⟨⟨fd, Or.inl rfl⟩, ?_⟩
  intro k hk
  obtain ⟨fd2, h | h⟩ := hk
  · injection h with h1 _; exact h1.symm
  · cases h

theorem out_event_dispatched (ptr : Nat) (fd : fd_t) :
    dispatched_to (loop_event.out_event ptr fd) ptr ∧
      ∀ k, dispatched_to (loop_event.out_event ptr fd) k → k = ptr := by
  refine ⟨⟨fd, Or.inr rfl⟩, ?_⟩
  intro k hk
  obtain ⟨fd2, h | h⟩ := hk
  · cases h
  · injection h with h1 _; exact h1.symm

theorem loop_record_inv (sinks : sinks_t) (ev : epoll_event) (s : loop_state)
    (hinv : loop_inv s) (hok : s.ok = true) : loop_inv (loop_record sinks ev s) := by
  rw [loop_record_eq]
  apply loop_next_inv _ _ _ _ _ _ (in_event_dispatched ev.ptr)
  apply loop_next_inv _ _ _ _ _ _ (out_event_dispatched ev.ptr)
  exact loop_phase_inv _ _ _ _ _ hinv hok (in_event_dispatched ev.ptr)

theorem loop_batch_inv (sinks : sinks_t) (evs : List epoll_event) (s : loop_state)
    (hinv : loop_inv s) : loop_inv (loop_batch sinks evs s) := by
  induction evs generalizing s with
  | nil => simpa [loop_batch] using hinv
  | cons ev evs ih =>
    unfold loop_batch
    by_cases hok : s.ok = true
    · simp only [hok, if_true]
      exact ih _ (loop_record_inv sinks ev s hinv hok)
    · simpa [hok] using hinv

/-- C1: in one dispatch pass over a batch of event records, whatever the sinks
do from inside their callbacks, once `rm_fd` has been called on a poll entry no
`in_event` and no `out_event` is delivered to that entry for the rest of the
batch, neither from the remaining flags of the record being processed nor from
a later record pointing to the same entry. -/
theorem loop_batch_quiet_after_rm (sinks : sinks_t) (evs : List epoll_event) (p : epoll_t)
    (pre post : List loop_event) (h : Nat)
    (hlog : (loop_batch sinks evs ⟨p, [], true⟩).log
      = pre ++ loop_event.call (.rm_fd h) :: post) :
    ∀ fd, loop_event.in_event h fd ∉ post ∧ loop_event.out_event h fd ∉ post := by
  have hinv : loop_inv (loop_batch sinks evs ⟨p, [], true⟩) := by
    apply loop_batch_inv
    refine ⟨?_, ?_⟩
    · intro pre0 post0 h0 heq
      simp at heq
    · intro _ h0 hmem
      simp at hmem
  intro fd
  exact ⟨fun hmem => hinv.1 pre post h hlog _ hmem ⟨fd, Or.inl rfl⟩,
    fun hmem => hinv.1 pre post h hlog _ hmem ⟨fd, Or.inr rfl⟩⟩

/-- C1 (witness): entry `0` removes itself inside the `in_event` fired for
EPOLLERR; the same record also carries EPOLLOUT and EPOLLIN, and a second
record points to the same entry. Nothing further is delivered to entry `0`;
entry `1` still gets its callback. -/
theorem loop_batch_quiet_after_rm_witness :
    (loop_batch self_removing_sink [⟨13, 0⟩, ⟨1, 0⟩, ⟨4, 1⟩] ⟨two_entries, [], true⟩).log
        = [.in_event 0 5] ++ loop_event.call (.rm_fd 0) :: [.out_event 1 6] ∧
      ∀ fd, loop_event.in_event 0 fd ∉ [loop_event.out_event 1 6] ∧
        loop_event.out_event 0 fd ∉ [loop_event.out_event 1 6] :=
  ⟨by decide,
    loop_batch_quiet_after_rm self_removing_sink [⟨13, 0⟩, ⟨1, 0⟩, ⟨4, 1⟩] two_entries
      [.in_event 0 5] [.out_event 1 6] 0 (by decide)⟩

/-! ## The socket wrappers -/

theorem to_int_of_range (n : Int) (h0 : 0 ≤ n) (h1 : n < 2147483648) : to_int n = n := by
  unfold to_int
  omega

theorem same_greeting_refl (a : stream_engine_t) : same_greeting a a :=
  ⟨rfl, rfl, rfl, rfl, rfl, rfl⟩

theorem same_greeting_trans {a b c : stream_engine_t} (h1 : same_greeting a b)
    (h2 : same_greeting b c) : same_greeting a c :=
  ⟨h1.1.trans h2.1, h1.2.1.trans h2.2.1, h1.2.2.1.trans h2.2.2.1,
    h1.2.2.2.1.trans h2.2.2.2.1, h1.2.2.2.2.1.trans h2.2.2.2.2.1,
    h1.2.2.2.2.2.trans h2.2.2.2.2.2⟩

theorem call_poller_engine (op : poller_op) (w : world) :
    (call_poller op w).engine = w.engine := by
  unfold call_poller
  split
  · rfl
  · split <;> rfl

theorem unplug_greeting (w : world) : same_greeting (unplug w).engine w.engine := by
  unfold unplug
  split
  · exact same_greeting_refl _
  · split
    · exact same_greeting_refl _
    · simp only []
      split
      · rw [call_poller_engine]; exact ⟨rfl, rfl, rfl, rfl, rfl, rfl⟩
      · simp only [call_poller_engine]; exact ⟨rfl, rfl, rfl, rfl, rfl, rfl⟩

theorem reenter_greeting (b : Bool) (w : world) :
    same_greeting (reenter b w).engine w.engine := by
  unfold reenter
  split
  · exact unplug_greeting w
  · exact same_greeting_refl _

theorem error_greeting (w : world) : same_greeting (error w).engine w.engine := by
  unfold error
  split
  · exact same_greeting_refl _
  · simp only []
    split
    · exact same_greeting_refl _
    · split
      · exact unplug_greeting _
      · exact unplug_greeting _

theorem in_event_fill_greeting (env : in_env) (w : world) :
    same_greeting (in_event_fill env w).1.engine w.engine := by
  unfold in_event_fill
  split
  · simp only []
    split
    · exact same_greeting_refl _
    · split <;> exact ⟨rfl, rfl, rfl, rfl, rfl, rfl⟩
  · exact same_greeting_refl _

theorem in_event_process_greeting (env : in_env) (d : Bool) (w : world) :
    same_greeting (in_event_process env d w).1.engine w.engine := by
  unfold in_event_process
  simp only []
  split
  · exact reenter_greeting _ (w.record _)
  · split
    · exact reenter_greeting _ (w.record _)
    · split
      · simp only [call_poller_engine]
        exact same_greeting_trans ⟨rfl, rfl, rfl, rfl, rfl, rfl⟩ (reenter_greeting _ (w.record _))
      · exact same_greeting_trans ⟨rfl, rfl, rfl, rfl, rfl, rfl⟩ (reenter_greeting _ (w.record _))

theorem flush_session_greeting (env : in_env) (w : world) :
    same_greeting (flush_session env w).engine w.engine := by
  unfold flush_session
  split
  · split
    · exact same_greeting_refl _
    · exact reenter_greeting _ (w.record _)
  · split
    · exact same_greeting_refl _
    · exact reenter_greeting _ (w.record _)

theorem report_disconnection_greeting (d : Bool) (w : world) :
    same_greeting (report_disconnection d w).engine w.engine := by
  unfold report_disconnection
  split
  · exact same_greeting_refl _
  · split
    · exact error_greeting _
    · exact same_greeting_refl _

theorem in_event_flush_greeting (env : in_env) (d : Bool) (w : world) :
    same_greeting (in_event_flush env d w).engine w.engine := by
  unfold in_event_flush
  split
  · exact same_greeting_refl _
  · exact same_greeting_trans (report_disconnection_greeting _ _) (flush_session_greeting _ _)

theorem greeting_inv_congr {H : Nat} {D : List Nat} {a b : stream_engine_t}
    (h : same_greeting a b) (hb : greeting_inv H D b) : greeting_inv H D a := by
  obtain ⟨h1, h2, h3, h4, h5, h6⟩ := h
  unfold greeting_inv at *
  rw [h1, h2, h3, h4, h5, h6]
  exact hb

theorem read_recv (r : recv_t) (hb : Int) (hlen : r.data.length < 2147483648)
    (h : read r.nbytes r.errno = some hb) : hb = -1 ∨ hb = r.data.length := by
  cases r with
  | fail e =>
    simp only [recv_t.nbytes, recv_t.errno, recv_t.data, read] at h ⊢
    split at h
    · injection h with h; right; simp [← h]
    · split at h
      · injection h with h; left; exact h.symm
      · simp at h
  | ok data =>
    simp only [recv_t.nbytes, recv_t.errno, recv_t.data, read] at h hlen ⊢
    have hne : (data.length : Int) ≠ -1 := by omega
    simp only [hne, false_and, if_false] at h
    split at h
    · injection h with h; left; exact h.symm
    · injection h with h
      right
      rw [← h]
      exact to_int_of_range _ (by omega) (by omega)

theorem to_size_t_sub (a b : Nat) (hb : b ≤ a) (ha : a < 18446744073709551616) :
    to_size_t ((a : Int) - (b : Int)) = a - b := by
  unfold to_size_t
  omega

theorem store_length (buf data : List Nat) (pos : Nat) (h : pos + data.length ≤ buf.length) :
    (store buf pos data).length = buf.length := by
  unfold store
  simp
  omega

theorem store_nil (buf : List Nat) (pos : Nat) : store buf pos [] = buf := by
  simp [store]

theorem in_event_header_inv (H : Nat) (D : List Nat) (env : in_env) (w : world)
    (hH : H < 2147483648) (hpol : env.polite) (hinv : greeting_inv H D w.engine) :
    greeting_inv H D (in_event_header env w).1.engine := by
  obtain ⟨hleg, hlen, hdes, hsplit, hacc⟩ := hinv
  unfold in_event_header
  by_cases hrec : w.engine.header_received = false
  · have hsum := hsplit hrec
    have hdl := (hpol w.engine.header_remaining).1
    simp only [hleg, hrec, and_self, if_true]
    cases hread : read (env.header_recv w.engine.header_remaining).nbytes
        (env.header_recv w.engine.header_remaining).errno with
    | none => exact ⟨hleg, hlen, hdes, hsplit, hacc⟩
    | some hbytes =>
      simp only []
      rcases read_recv _ hbytes (by omega) hread with hm | hn
      · subst hm
        simp only [if_true]
        exact greeting_inv_congr (error_greeting _) ⟨hleg, hlen, hdes, hsplit, hacc⟩
      · have hne : hbytes ≠ -1 := by omega
        simp only [hne, if_false]
        rw [hn, to_size_t_sub _ _ hdl (by omega)]
        have hpos : ((w.engine.header_pos : Int) +
            ((env.header_recv w.engine.header_remaining).data.length : Int)).toNat
            = w.engine.header_pos + (env.header_recv w.engine.header_remaining).data.length := by
          omega
        rw [hpos]
        have hst : (store w.engine.in_header w.engine.header_pos
            (env.header_recv w.engine.header_remaining).data).length = H := by
          rw [store_length _ _ _ (by omega)]; exact hlen
        by_cases hrem : w.engine.header_remaining -
            (env.header_recv w.engine.header_remaining).data.length ≠ 0
        · simp only [hrem, ne_eq, not_false_eq_true, if_true]
          exact ⟨hleg, hst, hdes, fun _ => by simp only []; omega, fun h => by
            simp at h⟩
        · simp only [hrem, if_false]
          split
          · apply greeting_inv_congr (error_greeting _)
            exact ⟨hleg, hst, hdes, fun _ => by simp only []; omega, fun h => by
              simp at h⟩
          · rename_i hcmp
            refine ⟨hleg, hst, hdes, fun h => by simp at h, fun _ => ⟨by simp only []; omega, ?_⟩⟩
            simp only [memcmp_ne, hst, hdes, bne_iff_ne, ne_eq, not_not] at hcmp
            simp only []
            rw [← hcmp, ← hst, List.take_length]
  · have hrec2 : w.engine.header_received = true := by simpa using hrec
    simp only [hrec2, hleg]
    exact ⟨hleg, hlen, hdes, hsplit, hacc⟩

theorem in_event_data_greeting (env : in_env) (w : world) :
    same_greeting
      (in_event_flush env (in_event_process env (in_event_fill env w).2 (in_event_fill env w).1).2
        (in_event_process env (in_event_fill env w).2 (in_event_fill env w).1).1).engine
      w.engine :=
  same_greeting_trans (in_event_flush_greeting _ _ _)
    (same_greeting_trans (in_event_process_greeting _ _ _) (in_event_fill_greeting _ _))

theorem in_event_inv (H : Nat) (D : List Nat) (env : in_env) (w : world)
    (hH : H < 2147483648) (hpol : env.polite) (hinv : greeting_inv H D w.engine) :
    greeting_inv H D (in_event env w).engine := by
  have hhdr := in_event_header_inv H D env w hH hpol hinv
  unfold in_event
  split
  · exact hinv
  · simp only []
    split
    · exact hhdr
    · split
      · exact greeting_inv_congr (in_event_fill_greeting _ _) hhdr
      · exact greeting_inv_congr (in_event_data_greeting _ _) hhdr

theorem in_events_inv (H : Nat) (D : List Nat) (envs : List in_env) (w : world)
    (hH : H < 2147483648) (hpol : ∀ env ∈ envs, env.polite)
    (hinv : greeting_inv H D w.engine) :
    greeting_inv H D (in_events envs w).engine := by
  induction envs generalizing w with
  | nil => exact hinv
  | cons env envs ih =>
    unfold in_events
    exact ih _ (fun e he => hpol e (List.mem_cons_of_mem _ he))
      (in_event_inv H D env w hH (hpol env (List.mem_cons_self _ _)) hinv)

/-- C2: take an engine without legacy_protocol whose greeting state is the one
the constructor leaves (it may have been plugged since), the greeting arrays
having the same size, below `2 ^ 31`. After any sequence of `in_event` calls in
which no `recv` delivers more bytes than requested, `header_received = true`
implies `header_remaining = 0` and `in_header = desired_header`, the expected
greeting being the one built at construction. -/
theorem header_received_implies_match (fd_ : fd_t) (uninit sp_out sp_desired : List Nat)
    (w0 : world) (envs : List in_env)
    (hsize : uninit.length < 2147483648) (hlen : sp_desired.length = uninit.length)
    (hw0 : same_greeting w0.engine
      (stream_engine_t.create fd_ ⟨false⟩ uninit sp_out sp_desired))
    (hpol : ∀ env ∈ envs, env.polite) :
    (in_events envs w0).engine.header_received = true →
      (in_events envs w0).engine.header_remaining = 0 ∧
      (in_events envs w0).engine.in_header = (in_events envs w0).engine.desired_header ∧
      (in_events envs w0).engine.desired_header = sp_desired := by
  have h0 : greeting_inv uninit.length sp_desired w0.engine := by
    apply greeting_inv_congr hw0
    refine ⟨rfl, rfl, by simp [stream_engine_t.create], fun _ => by simp [stream_engine_t.create],
      fun h => by simp [stream_engine_t.create] at h⟩
  obtain ⟨_, _, hdes, _, hacc⟩ := in_events_inv uninit.length sp_desired envs w0 hsize hpol h0
  intro hrec
  obtain ⟨hrem, heq⟩ := hacc hrec
  refine ⟨hrem, ?_, hdes⟩
  rw [heq, hdes, ← hlen, List.take_length]

/-! ## The engine: exact effect of the reactor calls of a plugged engine -/

theorem rm_fd_ok (p : epoll_t) (h : Nat) (pe : poll_entry_t) (hpe : p.heap[h]? = some pe)
    (hreg : pe.fd ∈ p.interest) : p.rm_fd h = some (removed p h pe) := by
  simp [epoll_t.rm_fd, hpe, epoll_ctl_del, hreg, adjust_load, removed]

theorem set_mask_ok (p : epoll_t) (h : Nat) (pe : poll_entry_t) (f : Nat → Nat)
    (hpe : p.heap[h]? = some pe) (hreg : pe.fd ∈ p.interest) :
    p.set_mask h f = some (masked p h pe f) := by
  simp [epoll_t.set_mask, hpe, epoll_ctl_mod, hreg, masked]

theorem call_poller_ok (op : poller_op) (w : world) (q : epoll_t)
    (hrun : w.status = .running) (hop : op.run w.poller = some q) :
    call_poller op w = { w with poller := q, log := w.log ++ [.poller op] } := by
  simp [call_poller, hrun, hop, world.record]

theorem unplug_ok (w : world) (pe : poll_entry_t) (hw : plugged_in w pe) :
    unplug w = { w with
      engine := unplugged w.engine
      poller := removed w.poller w.engine.handle pe
      log := w.log ++ [.poller (.rm_fd w.engine.handle)] } := by
  obtain ⟨hrun, hpl, _, hpe, _, hreg⟩ := hw
  have hop : (poller_op.rm_fd w.engine.handle).run w.poller
      = some (removed w.poller w.engine.handle pe) := rm_fd_ok _ _ _ hpe hreg
  unfold unplug
  rw [call_poller_ok _ _ _ (by exact hrun) (by exact hop)]
  simp [hrun, hpl, unplugged]

theorem error_ok (w : world) (pe : poll_entry_t) (hw : plugged_in w pe) :
    error w = { w with
      engine := unplugged w.engine
      poller := removed w.poller w.engine.handle pe
      log := w.log ++ [.error, .detach, .poller (.rm_fd w.engine.handle), .delete_this]
      status := .deleted } := by
  have hw2 : plugged_in ((w.record .error).record .detach) pe := hw
  obtain ⟨hrun, hpl, hsess, hpe, _, hreg⟩ := hw
  have hu := unplug_ok _ pe hw2
  simp only [world.record, hrun, List.append_assoc, List.singleton_append,
    List.cons_append, List.nil_append] at hu
  unfold error
  simp [hrun, world.record, hsess, hu]

theorem greeting_feed_polite (bytes : List Nat) : (greeting_feed bytes).polite := by
  intro size
  simp [greeting_feed, calm_in, recv_t.data, List.length_take]

/-- C2 (witness): the responder's greeting arrives in two pieces at a plugged
initiator; the greeting is accepted and the buffer equals the expected
greeting. -/
theorem header_received_implies_match_witness :
    (in_events [greeting_feed [1, 0, 0], greeting_feed [0, 2, 0, 0, 0]]
        (registered_world false)).engine.header_received = true ∧
      (in_events [greeting_feed [1, 0, 0], greeting_feed [0, 2, 0, 0, 0]]
        (registered_world false)).engine.header_remaining = 0 ∧
      (in_events [greeting_feed [1, 0, 0], greeting_feed [0, 2, 0, 0, 0]]
        (registered_world false)).engine.in_header =
      (in_events [greeting_feed [1, 0, 0], greeting_feed [0, 2, 0, 0, 0]]
        (registered_world false)).engine.desired_header ∧
      (in_events [greeting_feed [1, 0, 0], greeting_feed [0, 2, 0, 0, 0]]
        (registered_world false)).engine.desired_header = responder_greeting :=
  ⟨by decide,
    header_received_implies_match 7 (List.replicate 8 0) initiator_greeting responder_greeting
      (registered_world false) [greeting_feed [1, 0, 0], greeting_feed [0, 2, 0, 0, 0]]
      (by decide) (by decide) ⟨rfl, rfl, rfl, rfl, rfl, rfl⟩
      (by
        intro env henv
        simp only [List.mem_cons, List.mem_singleton, List.not_mem_nil, or_false] at henv
        rcases henv with h | h <;> subst h <;> exact greeting_feed_polite _)
      (by decide)⟩

/-! ## The engine: the greeting ingress -/

theorem read_ok (data : List Nat) (hne : data ≠ []) (hlen : data.length < 2147483648) :
    read (recv_t.ok data).nbytes (recv_t.ok data).errno = some (data.length : Int) := by
  have hpos : 0 < data.length := List.length_pos.mpr hne
  have h1 : (data.length : Int) ≠ -1 := by omega
  have h2 : (data.length : Int) ≠ 0 := by omega
  simp [read, recv_t.nbytes, h1, h2, to_int_of_range (data.length : Int) (by omega) (by omega)]

theorem store_all (buf data : List Nat) (h : data.length = buf.length) :
    store buf 0 data = data := by
  simp [store, h]

theorem memcmp_ne_of_head (a b : List Nat) (ha : a ≠ []) (h : a.head? ≠ b.head?) :
    memcmp_ne a b a.length = true := by
  cases a with
  | nil => exact absurd rfl ha
  | cons x xs =>
    cases b with
    | nil => simp [memcmp_ne]
    | cons y ys =>
      have hxy : x ≠ y := by simpa using h
      simp [memcmp_ne, hxy]

/-- C7 (as amended): an engine without legacy_protocol that is plugged and has
received no greeting byte yet makes one `recv` for the whole greeting in its
first `in_event`. When that `recv` delivers fewer bytes than the greeting (at
least one), the call stores them and returns without `error ()`, whatever the
first byte is. When it delivers the whole greeting and the first byte differs
from the first byte of the expected greeting, the call goes to `error ()`
right after this one `recv`: detach, `rm_fd`, self-destruction, and no further
read. -/
theorem greeting_checked_when_complete (w : world) (pe : poll_entry_t) (env : in_env)
    (data : List Nat) (hw : plugged_in w pe)
    (hleg : w.engine.options.legacy_protocol = false)
    (hrec : w.engine.header_received = false)
    (hpos : w.engine.header_pos = 0)
    (hrem : w.engine.header_remaining = w.engine.in_header.length)
    (hsize : w.engine.in_header.length < 2147483648)
    (hread : env.header_recv w.engine.in_header.length = .ok data)
    (hne : data ≠ []) :
    (data.length < w.engine.in_header.length →
      in_event env w = { w with
        engine := { w.engine with
          in_header := store w.engine.in_header 0 data
          header_pos := data.length
          header_remaining := w.engine.in_header.length - data.length }
        log := w.log ++ [.recv_header 0 w.engine.in_header.length] }) ∧
    (data.length = w.engine.in_header.length →
      data.head? ≠ w.engine.desired_header.head? →
      in_event env w = { w with
        engine := unplugged { w.engine with
          in_header := data
          header_pos := data.length
          header_remaining := 0 }
        poller := removed w.poller w.engine.handle pe
        log := w.log ++ [.recv_header 0 w.engine.in_header.length, .error, .detach,
          .poller (.rm_fd w.engine.handle), .delete_this]
        status := .deleted }) := by
  have hrun : w.status = .running := hw.1
  refine ⟨?_, ?_⟩
  · intro hlt
    have hr := read_ok data hne (by omega)
    have hne1 : (data.length : Int) ≠ -1 := by omega
    have hsub := to_size_t_sub w.engine.in_header.length data.length (by omega) (by omega)
    have hnz : w.engine.in_header.length - data.length ≠ 0 := by omega
    simp [in_event, in_event_header, hrun, hleg, hrec, hpos, hrem, hread, hr, hne1, hsub, hnz,
      world.record, recv_t.data]
  · intro heq hhead
    have hr := read_ok data hne (by omega)
    have hne1 : (data.length : Int) ≠ -1 := by omega
    have hsub := to_size_t_sub w.engine.in_header.length data.length (by omega) (by omega)
    have hst := store_all w.engine.in_header data heq
    have hcmp := memcmp_ne_of_head data w.engine.desired_header hne hhead
    have hcmp2 : memcmp_ne data w.engine.desired_header w.engine.in_header.length = true := by
      rw [← heq]; exact hcmp
    have hts : to_size_t 0 = 0 := by decide
    have hw2 : plugged_in
        { w with
          engine := { w.engine with
            in_header := data
            header_pos := w.engine.in_header.length
            header_remaining := 0
            header_received := false }
          log := w.log ++ [.recv_header 0 w.engine.in_header.length]
          status := .running } pe :=
      ⟨rfl, hw.2.1, hw.2.2.1, hw.2.2.2.1, hw.2.2.2.2.1, hw.2.2.2.2.2⟩
    have he := error_ok _ pe hw2
    simp only [] at he
    simp [in_event, in_event_header, hrun, hleg, hrec, hpos, hrem, hread, hr, hne1, hsub,
      world.record, hst, hcmp2, heq, he, recv_t.data, hts, unplugged]

/-- C7 (witness): at the plugged initiator a single wrong byte is stored and
the call returns; the complete greeting `[9, 0, 0, 0, 2, 0, 0, 0]`, wrong in its
first byte, ends in `error ()`. -/
theorem greeting_checked_when_complete_witness :
    (in_event (greeting_feed [9]) (registered_world false)).status = .running ∧
      (in_event (greeting_feed [9, 0, 0, 0, 2, 0, 0, 0]) (registered_world false)).status
        = .deleted := by
  have hw : plugged_in (registered_world false) ⟨7, 5, 0⟩ :=
    ⟨rfl, rfl, by decide, rfl, rfl, by decide⟩
  refine ⟨?_, ?_⟩
  · rw [(greeting_checked_when_complete (registered_world false) ⟨7, 5, 0⟩ (greeting_feed [9])
      [9] hw rfl rfl rfl rfl (by decide) rfl (by decide)).1 (by decide)]
    rfl
  · rw [(greeting_checked_when_complete (registered_world false) ⟨7, 5, 0⟩
      (greeting_feed [9, 0, 0, 0, 2, 0, 0, 0]) [9, 0, 0, 0, 2, 0, 0, 0] hw rfl rfl rfl rfl
      (by decide) rfl (by decide)).2 rfl (by decide)]

/-- C7 (counterexample to the claim as stated): the first `in_event` of a
plugged engine reads one byte, `9`, which differs from the first byte `1` of
the expected greeting; the call does not reach `error ()`: the engine keeps
running and waits for the seven bytes that remain. -/
theorem first_byte_mismatch_waits :
    [9].head? ≠ (registered_world false).engine.desired_header.head? ∧
      (in_event (greeting_feed [9]) (registered_world false)).status = .running ∧
      event.error ∉ (in_event (greeting_feed [9]) (registered_world false)).log ∧
      (in_event (greeting_feed [9]) (registered_world false)).engine.header_received = false ∧
      (in_event (greeting_feed [9]) (registered_world false)).engine.header_remaining = 7 := by
  decide

/-! ## The engine: what each part appends to the log -/

theorem call_poller_log (op : poller_op) (w : world) :
    ∃ l, (call_poller op w).log = w.log ++ l ∧ ∀ e ∈ l, quiet_event e := by
  unfold call_poller
  split
  · exact ⟨[], by simp, by simp⟩
  · split
    · exact ⟨[.poller op], rfl, by simp [quiet_event]⟩
    · exact ⟨[.poller op], rfl, by simp [quiet_event]⟩

theorem unplug_log (w : world) :
    ∃ l, (unplug w).log = w.log ++ l ∧ ∀ e ∈ l, quiet_event e := by
  unfold unplug
  split
  · exact ⟨[], by simp, by simp⟩
  · split
    · exact ⟨[], by simp [world.abort], by simp⟩
    · obtain ⟨l, hl, hq⟩ := call_poller_log (.rm_fd w.engine.handle)
        { w with engine := { w.engine with plugged := false } }
      simp only []
      split
      · exact ⟨l, hl, hq⟩
      · exact ⟨l, hl, hq⟩

theorem reenter_log (b : Bool) (w : world) :
    ∃ l, (reenter b w).log = w.log ++ l ∧ ∀ e ∈ l, quiet_event e := by
  unfold reenter
  split
  · exact unplug_log w
  · exact ⟨[], by simp, by simp⟩

theorem flush_session_log (env : in_env) (w : world) :
    ∃ l, (flush_session env w).log = w.log ++ l ∧ ∀ e ∈ l, quiet_event e := by
  unfold flush_session
  split
  · split
    · exact ⟨[], by simp [world.abort], by simp⟩
    · obtain ⟨l, hl, hq⟩ := reenter_log env.flush_unplugs (w.record .leftover_flush)
      refine ⟨.leftover_flush :: l, by rw [hl]; simp [world.record], ?_⟩
      intro e he
      rcases List.mem_cons.mp he with h | h
      · subst h; exact Or.inr (Or.inr rfl)
      · exact hq e h
  · split
    · exact ⟨[], by simp [world.abort], by simp⟩
    · obtain ⟨l, hl, hq⟩ := reenter_log env.flush_unplugs (w.record .flush)
      refine ⟨.flush :: l, by rw [hl]; simp [world.record], ?_⟩
      intro e he
      rcases List.mem_cons.mp he with h | h
      · subst h; exact Or.inr (Or.inl rfl)
      · exact hq e h

theorem error_log (w : world) :
    ∃ l, (error w).log = w.log ++ l ∧ ∀ e ∈ l, closing_event e := by
  unfold error
  split
  · exact ⟨[], by simp, by simp⟩
  · simp only []
    split
    · exact ⟨[.error], by simp [world.abort, world.record], by simp [closing_event]⟩
    · obtain ⟨l, hl, hq⟩ := unplug_log ((w.record .error).record .detach)
      split
      · refine ⟨.error :: .detach :: l, by rw [hl]; simp [world.record], ?_⟩
        intro e he
        simp only [List.mem_cons] at he
        rcases he with h | h | h
        · subst h; simp [closing_event]
        · subst h; simp [closing_event]
        · exact Or.inl (hq e h)
      · refine ⟨.error :: .detach :: (l ++ [.delete_this]), by
          simp only [world.record] at hl ⊢; rw [hl]; simp, ?_⟩
        intro e he
        simp only [List.mem_cons, List.mem_append, List.mem_singleton, List.not_mem_nil,
          or_false] at he
        rcases he with h | h | h | h
        · subst h; simp [closing_event]
        · subst h; simp [closing_event]
        · exact Or.inl (hq e h)
        · subst h; simp [closing_event]

theorem report_disconnection_log (d : Bool) (w : world) :
    ∃ l, (report_disconnection d w).log = w.log ++ l ∧ ∀ e ∈ l, closing_event e := by
  unfold report_disconnection
  split
  · exact ⟨[], by simp, by simp⟩
  · split
    · exact error_log w
    · exact ⟨[], by simp, by simp⟩

theorem report_disconnection_false (w : world) : report_disconnection false w = w := by
  simp [report_disconnection]

theorem in_event_process_log (env : in_env) (d : Bool) (w : world) :
    ∃ l, (in_event_process env d w).1.log
        = w.log ++ .process_buffer w.engine.inpos w.engine.insize :: l ∧
      ∀ e ∈ l, quiet_event e := by
  obtain ⟨l, hl, hq⟩ := reenter_log env.process_unplugs
    (w.record (.process_buffer w.engine.inpos w.engine.insize))
  have hl2 : (reenter env.process_unplugs
      (w.record (.process_buffer w.engine.inpos w.engine.insize))).log
      = w.log ++ .process_buffer w.engine.inpos w.engine.insize :: l := by
    rw [hl]; simp [world.record]
  unfold in_event_process
  simp only []
  split
  · exact ⟨l, hl2, hq⟩
  · split
    · exact ⟨l, hl2, hq⟩
    · split
      · obtain ⟨l2, hl3, hq2⟩ := call_poller_log
          (.reset_pollin (reenter env.process_unplugs
            (w.record (.process_buffer w.engine.inpos w.engine.insize))).engine.handle)
          (reenter env.process_unplugs
            (w.record (.process_buffer w.engine.inpos w.engine.insize)))
        refine ⟨l ++ l2, by simp [hl3, hl2], ?_⟩
        intro e he
        rcases List.mem_append.mp he with h | h
        · exact hq e h
        · exact hq2 e h
      · exact ⟨l, hl2, hq⟩

theorem in_event_flush_log (env : in_env) (d : Bool) (w : world) :
    ∃ l, (in_event_flush env d w).log = w.log ++ l ∧ ∀ e ∈ l, closing_event e := by
  unfold in_event_flush
  split
  · exact ⟨[], by simp, by simp⟩
  · obtain ⟨l1, h1, q1⟩ := flush_session_log env w
    obtain ⟨l2, h2, q2⟩ := report_disconnection_log d (flush_session env w)
    refine ⟨l1 ++ l2, by simp [h2, h1], ?_⟩
    intro e he
    rcases List.mem_append.mp he with h | h
    · exact Or.inl (q1 e h)
    · exact q2 e h

theorem in_event_flush_log_quiet (env : in_env) (w : world) :
    ∃ l, (in_event_flush env false w).log = w.log ++ l ∧ ∀ e ∈ l, quiet_event e := by
  unfold in_event_flush
  split
  · exact ⟨[], by simp, by simp⟩
  · rw [report_disconnection_false]
    exact flush_session_log env w

theorem quiet_event_ne_error (e : event) (h : quiet_event e) : e ≠ .error := by
  rintro rfl
  rcases h with ⟨op, h⟩ | h | h <;> cases h

/-! ## The engine: a greeting that arrives in chunks -/

theorem read_would_block : read (recv_t.fail EAGAIN).nbytes (recv_t.fail EAGAIN).errno = some 0 := by
  decide

theorem to_size_t_natCast (n : Nat) (h : n < 18446744073709551616) :
    to_size_t (n : Int) = n := by
  unfold to_size_t
  omega

theorem store_append (done junk c : List Nat) :
    store (done ++ junk) done.length c = (done ++ c) ++ junk.drop c.length := by
  simp [store, List.take_append_eq_append_take, List.drop_append_eq_append_drop]

theorem chunk_inv_would_block (done rest : List Nat) (env : in_env) (w : world)
    (hinv : chunk_inv done rest w) (hrest : rest ≠ [])
    (hsize : (done ++ rest).length < 2147483648) :
    chunk_inv done rest (in_event (with_arrival none env) w) := by
  obtain ⟨hrun, hleg, hrec, hdes, hpos, hrem, hbuf, hlog⟩ := hinv
  have hlen : 0 < rest.length := List.length_pos.mpr hrest
  have hlen2 : rest.length < 18446744073709551616 := by
    simp only [List.length_append] at hsize; omega
  have hz : to_size_t ((rest.length : Int) - 0) = rest.length := by
    simpa using to_size_t_natCast rest.length hlen2
  have hnz : rest.length ≠ 0 := by omega
  have hnil : rest = [] ↔ False := by simp [hrest]
  have hw : in_event (with_arrival none env) w = { w with
      log := w.log ++ [.recv_header done.length rest.length] } := by
    simp [in_event, in_event_header, with_arrival, arrival, hrun, hleg, hrec, hpos, hrem,
      read_would_block, world.record, recv_t.data, store_nil, hnz, hnil]
    cases w; cases ‹stream_engine_t›; simp_all
  rw [hw]
  refine ⟨hrun, hleg, hrec, hdes, hpos, hrem, hbuf, ?_⟩
  simp [hlog]

theorem chunk_inv_chunk (done c rest : List Nat) (env : in_env) (w : world)
    (hinv : chunk_inv done (c ++ rest) w) (hc : c ≠ []) (hrest : rest ≠ [])
    (hsize : (done ++ (c ++ rest)).length < 2147483648) :
    chunk_inv (done ++ c) rest (in_event (with_arrival (some c) env) w) := by
  obtain ⟨hrun, hleg, hrec, hdes, hpos, hrem, ⟨junk, hbuf, hjunk⟩, hlog⟩ := hinv
  simp only [List.length_append] at hsize hrem hjunk
  have hlen : 0 < rest.length := List.length_pos.mpr hrest
  have hr := read_ok c hc (by omega)
  have hne1 : (c.length : Int) ≠ -1 := by omega
  have hsub : to_size_t (rest.length : Int) = rest.length :=
    to_size_t_natCast rest.length (by omega)
  have hnz : rest.length ≠ 0 := by omega
  have hnil : rest = [] ↔ False := by simp [hrest]
  have hposn : ((done.length : Int) + (c.length : Int)).toNat = done.length + c.length := by
    omega
  have hw : in_event (with_arrival (some c) env) w = { w with
      engine := { w.engine with
        in_header := (done ++ c) ++ junk.drop c.length
        header_pos := done.length + c.length
        header_remaining := rest.length }
      log := w.log ++ [.recv_header done.length (c.length + rest.length)] } := by
    simp [in_event, in_event_header, with_arrival, arrival, hrun, hleg, hrec, hpos, hrem,
      hr, hne1, world.record, recv_t.data, hnz, hnil, hsub, hposn, hbuf, store_append]
  rw [hw]
  refine ⟨hrun, hleg, hrec, by simpa using hdes, by simp, rfl,
    ⟨junk.drop c.length, rfl, by simp; omega⟩, ?_⟩
  simp [hlog]

theorem read_range (a : Int) (b : Nat) (n : Int) (h : read a b = some n) :
    -2147483648 ≤ n ∧ n < 2147483648 := by
  unfold read at h
  split at h
  · injection h with h; omega
  · split at h
    · injection h with h; omega
    · split at h
      · cases h
      · split at h
        · injection h with h; omega
        · injection h with h
          unfold to_int at h
          omega

theorem in_event_fill_calm (env : in_env) (w : world)
    (hdata : ∀ n, read (env.data_recv env.get_buffer.2).nbytes
      (env.data_recv env.get_buffer.2).errno = some n → n ≠ -1)
    (hlog : event.error ∉ w.log) :
    (in_event_fill env w).2 = false ∧ event.error ∉ (in_event_fill env w).1.log := by
  unfold in_event_fill
  split
  · simp only []
    cases hread : read (env.data_recv env.get_buffer.2).nbytes
        (env.data_recv env.get_buffer.2).errno with
    | none => simp [world.abort, world.record, hlog]
    | some n =>
      have hne := hdata n hread
      have hrng := read_range _ _ n hread
      have hsz : to_size_t n ≠ SIZE_MAX := by
        unfold to_size_t SIZE_MAX
        omega
      simp [hsz, world.record, hlog]
  · exact ⟨rfl, hlog⟩

theorem in_event_process_calm (env : in_env) (w : world)
    (hdec : ∀ pos size, env.process_buffer pos size % 18446744073709551616 ≠ SIZE_MAX)
    (hlog : event.error ∉ w.log) :
    (in_event_process env false w).2 = false ∧
      event.error ∉ (in_event_process env false w).1.log := by
  refine ⟨?_, ?_⟩
  · unfold in_event_process
    simp only []
    split
    · rfl
    · simp [hdec]
  · obtain ⟨l, hl, hq⟩ := in_event_process_log env false w
    rw [hl]
    intro hmem
    rcases List.mem_append.mp hmem with h | h
    · exact hlog h
    · rcases List.mem_cons.mp h with h | h
      · cases h
      · exact quiet_event_ne_error _ (hq _ h) rfl

theorem in_event_flush_calm (env : in_env) (w : world) (hlog : event.error ∉ w.log) :
    event.error ∉ (in_event_flush env false w).log := by
  obtain ⟨l, hl, hq⟩ := in_event_flush_log_quiet env w
  rw [hl]
  intro hmem
  rcases List.mem_append.mp hmem with h | h
  · exact hlog h
  · exact quiet_event_ne_error _ (hq _ h) rfl

theorem memcmp_ne_self (a : List Nat) (n : Nat) : memcmp_ne a a n = false := by
  simp [memcmp_ne]

theorem chunk_inv_last (done c : List Nat) (env : in_env) (w : world)
    (hinv : chunk_inv done c w) (hc : c ≠ [])
    (hsize : (done ++ c).length < 2147483648)
    (hdata : ∀ n, read (env.data_recv env.get_buffer.2).nbytes
      (env.data_recv env.get_buffer.2).errno = some n → n ≠ -1)
    (hdec : ∀ pos size, env.process_buffer pos size % 18446744073709551616 ≠ SIZE_MAX) :
    (in_event (with_arrival (some c) env) w).engine.header_received = true ∧
      event.error ∉ (in_event (with_arrival (some c) env) w).log := by
  obtain ⟨hrun, hleg, hrec, hdes, hpos, hrem, ⟨junk, hbuf, hjunk⟩, hlog⟩ := hinv
  simp only [List.length_append] at hsize
  have hr := read_ok c hc (by omega)
  have hne1 : (c.length : Int) ≠ -1 := by omega
  have hsub : to_size_t 0 = 0 := by decide
  have hposn : ((done.length : Int) + (c.length : Int)).toNat = done.length + c.length := by
    omega
  have hdrop : junk.drop c.length = [] := List.drop_eq_nil_of_le (by omega)
  have hhdr : in_event_header (with_arrival (some c) env) w = ({ w with
      engine := { w.engine with
        in_header := done ++ c
        header_pos := done.length + c.length
        header_remaining := 0
        header_received := true }
      log := w.log ++ [.recv_header done.length c.length] }, true) := by
    simp [in_event_header, with_arrival, arrival, hleg, hrec, hpos, hrem,
      hr, hne1, world.record, recv_t.data, hsub, hposn, hbuf, store_append, hdrop, hdes,
      memcmp_ne_self]
  generalize hw1 : ({ w with
      engine := { w.engine with
        in_header := done ++ c
        header_pos := done.length + c.length
        header_remaining := 0
        header_received := true }
      log := w.log ++ [.recv_header done.length c.length] } : world) = w1 at hhdr
  have hrec1 : w1.engine.header_received = true := by rw [← hw1]
  have hlog1 : event.error ∉ w1.log := by rw [← hw1]; simp [hlog]
  have hfill := in_event_fill_calm (with_arrival (some c) env) w1 hdata hlog1
  have hfg := in_event_fill_greeting (with_arrival (some c) env) w1
  have hev : in_event (with_arrival (some c) env) w =
      if (in_event_fill (with_arrival (some c) env) w1).1.status ≠ .running
      then (in_event_fill (with_arrival (some c) env) w1).1
      else in_event_flush (with_arrival (some c) env)
        (in_event_process (with_arrival (some c) env)
          (in_event_fill (with_arrival (some c) env) w1).2
          (in_event_fill (with_arrival (some c) env) w1).1).2
        (in_event_process (with_arrival (some c) env)
          (in_event_fill (with_arrival (some c) env) w1).2
          (in_event_fill (with_arrival (some c) env) w1).1).1 := by
    simp [in_event, hrun, hhdr]
  rw [hev]
  split
  · exact ⟨by rw [hfg.2.2.2.2.2]; exact hrec1, hfill.2⟩
  · refine ⟨?_, ?_⟩
    · rw [(in_event_data_greeting (with_arrival (some c) env) w1).2.2.2.2.2]
      exact hrec1
    · rw [hfill.1]
      have hproc := in_event_process_calm (with_arrival (some c) env)
        (in_event_fill (with_arrival (some c) env) w1).1 hdec hfill.2
      rw [hproc.1]
      exact in_event_flush_calm _ _ hproc.2

theorem feed_cons (x : Option (List Nat) × in_env) (xs : List (Option (List Nat) × in_env))
    (w : world) : feed (x :: xs) w = feed xs (in_event (with_arrival x.1 x.2) w) := by
  simp [feed, in_events]

theorem feed_chunks (before : List (Option (List Nat) × in_env)) (last : List Nat)
    (env : in_env) (done : List Nat) (w : world)
    (hinv : chunk_inv done ((before.filterMap (fun x => x.1)).flatten ++ last) w)
    (hchunks : ∀ x ∈ before, ∀ c, x.1 = some c → c ≠ []) (hlast : last ≠ [])
    (hsize : (done ++ ((before.filterMap (fun x => x.1)).flatten ++ last)).length
      < 2147483648)
    (hdata : ∀ n, read (env.data_recv env.get_buffer.2).nbytes
      (env.data_recv env.get_buffer.2).errno = some n → n ≠ -1)
    (hdec : ∀ pos size, env.process_buffer pos size % 18446744073709551616 ≠ SIZE_MAX) :
    (∀ k, k ≤ before.length →
      (feed (before.take k) w).status = .running ∧
      (feed (before.take k) w).engine.header_received = false ∧
      event.error ∉ (feed (before.take k) w).log) ∧
    (feed (before ++ [(some last, env)]) w).engine.header_received = true ∧
    event.error ∉ (feed (before ++ [(some last, env)]) w).log := by
  induction before generalizing done w with
  | nil =>
    refine ⟨?_, ?_⟩
    · intro k _
      simp only [List.take_nil, feed, List.map_nil, in_events]
      exact ⟨hinv.1, hinv.2.2.1, hinv.2.2.2.2.2.2.2⟩
    · simp only [List.nil_append, feed_cons]
      simp only [feed, List.map_nil, in_events]
      exact chunk_inv_last done last env w (by simpa using hinv) hlast (by simpa using hsize)
        hdata hdec
  | cons x xs ih =>
    obtain ⟨a, e⟩ := x
    have hrestne : (xs.filterMap (fun x => x.1)).flatten ++ last ≠ [] := by
      simp [hlast]
    have hchunks2 : ∀ x ∈ xs, ∀ c, x.1 = some c → c ≠ [] :=
      fun x hx => hchunks x (List.mem_cons_of_mem _ hx)
    cases a with
    | none =>
      have hinv2 : chunk_inv done ((xs.filterMap (fun x => x.1)).flatten ++ last)
          (in_event (with_arrival none e) w) :=
        chunk_inv_would_block done _ e w (by simpa using hinv) hrestne (by simpa using hsize)
      obtain ⟨h1, h2⟩ := ih done _ hinv2 hchunks2 (by simpa using hsize)
      refine ⟨?_, by simpa [feed_cons] using h2⟩
      intro k hk
      cases k with
      | zero =>
        simp only [List.take_zero, feed, List.map_nil, in_events]
        exact ⟨hinv.1, hinv.2.2.1, hinv.2.2.2.2.2.2.2⟩
      | succ k =>
        simp only [List.take_succ_cons, feed_cons]
        exact h1 k (by simpa using hk)
    | some c =>
      have hc : c ≠ [] := hchunks (some c, e) (List.mem_cons_self _ _) c rfl
      have hinv2 : chunk_inv (done ++ c) ((xs.filterMap (fun x => x.1)).flatten ++ last)
          (in_event (with_arrival (some c) e) w) :=
        chunk_inv_chunk done c _ e w (by simpa using hinv) hc hrestne (by simpa using hsize)
      obtain ⟨h1, h2⟩ := ih (done ++ c) _ hinv2 hchunks2 (by simpa using hsize)
      refine ⟨?_, by simpa [feed_cons] using h2⟩
      intro k hk
      cases k with
      | zero =>
        simp only [List.take_zero, feed, List.map_nil, in_events]
        exact ⟨hinv.1, hinv.2.2.1, hinv.2.2.2.2.2.2.2⟩
      | succ k =>
        simp only [List.take_succ_cons, feed_cons]
        exact h1 k (by simpa using hk)

/-- C6: take a running engine without legacy_protocol that has received no
greeting byte and has not called `error ()`, and split the expected greeting
into non-empty chunks, the last one being `last`; `before` lists the earlier
calls, each delivering the next chunk or nothing (the read would block). With
one `in_event` call per arrival, the engine keeps running without `error ()`
and with `header_received = false` after every call before the last chunk, and
the call that delivers the last chunk sets `header_received = true` without
calling `error ()`, provided that in this call the read that follows the
greeting does not report a peer failure and the decoder does not report a
framing error. -/
theorem greeting_in_chunks (w : world) (before : List (Option (List Nat) × in_env))
    (last : List Nat) (env : in_env)
    (hrun : w.status = .running)
    (hleg : w.engine.options.legacy_protocol = false)
    (hrec : w.engine.header_received = false)
    (hpos : w.engine.header_pos = 0)
    (hrem : w.engine.header_remaining = w.engine.in_header.length)
    (hdes : w.engine.desired_header.length = w.engine.in_header.length)
    (hsize : w.engine.in_header.length < 2147483648)
    (hnoerr : event.error ∉ w.log)
    (hchunks : ∀ x ∈ before, ∀ c, x.1 = some c → c ≠ []) (hlast : last ≠ [])
    (hsplit : (before.filterMap (fun x => x.1)).flatten ++ last = w.engine.desired_header)
    (hdata : ∀ n, read (env.data_recv env.get_buffer.2).nbytes
      (env.data_recv env.get_buffer.2).errno = some n → n ≠ -1)
    (hdec : ∀ pos size, env.process_buffer pos size % 18446744073709551616 ≠ SIZE_MAX) :
    (∀ k, k ≤ before.length →
      (feed (before.take k) w).status = .running ∧
      (feed (before.take k) w).engine.header_received = false ∧
      event.error ∉ (feed (before.take k) w).log) ∧
    (feed (before ++ [(some last, env)]) w).engine.header_received = true ∧
    event.error ∉ (feed (before ++ [(some last, env)]) w).log := by
  have hlen : ((before.filterMap (fun x => x.1)).flatten ++ last).length
      = w.engine.in_header.length := by rw [hsplit, hdes]
  apply feed_chunks before last env [] w ?_ hchunks hlast ?_ hdata hdec
  · refine ⟨hrun, hleg, hrec, by simpa using hsplit.symm, by simpa using hpos, ?_,
      ⟨w.engine.in_header, by simp, hlen.symm⟩, hnoerr⟩
    rw [hrem, hlen]
  · simpa [hlen] using hsize

/-- C6 (witness): the responder's greeting reaches the plugged initiator in
one-byte increments, with one would-block read in between; after the first
eight calls (seven bytes) the greeting is not yet accepted, and the call
delivering the eighth byte accepts it without `error ()`. -/
theorem greeting_in_chunks_witness :
    (feed (one_byte_arrivals.take 8) (registered_world false)).engine.header_received = false ∧
      (feed (one_byte_arrivals ++ [(some [0], decoding 0 calm_in)])
        (registered_world false)).engine.header_received = true ∧
      event.error ∉ (feed (one_byte_arrivals ++ [(some [0], decoding 0 calm_in)])
        (registered_world false)).log := by
  have h := greeting_in_chunks (registered_world false) one_byte_arrivals [0]
    (decoding 0 calm_in) rfl rfl rfl rfl rfl rfl (by decide) (by decide)
    (by simp [one_byte_arrivals]) (by decide) (by decide)
    (by
      intro n hn
      have h0 : n = 0 := by
        have := read_would_block
        simp only [decoding, calm_in] at hn
        rw [this] at hn
        injection hn with hn
        exact hn.symm
      omega)
    (by intro pos size; simp [decoding, SIZE_MAX])
  exact ⟨(h.1 8 (by decide)).2.1, h.2⟩

/-! ## The engine: peer failure on the data path -/

/-- C3: a plugged engine whose handshake is complete (or which runs the legacy
protocol) and whose in-buffer is empty gets a peer failure (-1) from the read
of `in_event`, and no callback unplugs it. Then the call makes, in this order
and nothing else: `get_buffer`, the `recv`, `process_buffer` on zero bytes,
`session->flush ()`, `error ()`, one `session->detach ()`, `rm_fd` on the
engine's handle, and the self-destruction; `reset_pollin` is not called. The
reactor ends with the engine's fd unregistered, the entry retired and queued on
the retired list and the load one lower; the engine ends unplugged with a null
session. -/
theorem peer_failure_flush_then_error (w : world) (pe : poll_entry_t) (env : in_env)
    (hw : plugged_in w pe)
    (hdone : w.engine.options.legacy_protocol = true ∨ w.engine.header_received = true)
    (hempty : w.engine.insize = 0)
    (hread : read (env.data_recv env.get_buffer.2).nbytes
      (env.data_recv env.get_buffer.2).errno = some (-1))
    (hp : env.process_unplugs = false) (hf : env.flush_unplugs = false) :
    (in_event env w).log = w.log ++
        [.get_buffer, .recv env.get_buffer.1 env.get_buffer.2,
          .process_buffer env.get_buffer.1 0, .flush, .error, .detach,
          .poller (.rm_fd w.engine.handle), .delete_this] ∧
      (in_event env w).status = .deleted ∧
      (in_event env w).poller = removed w.poller w.engine.handle pe ∧
      (in_event env w).poller.load = w.poller.load - 1 ∧
      (in_event env w).poller.interest = w.poller.interest.erase w.engine.s ∧
      (in_event env w).poller.retired = w.poller.retired ++ [w.engine.handle] ∧
      (in_event env w).poller.heap[w.engine.handle]? = some { pe with fd := retired_fd } ∧
      (in_event env w).engine.plugged = false ∧
      (in_event env w).engine.session = none := by
  obtain ⟨hrun, hpl, hsess, hpe, hfd, hreg⟩ := hw
  have hrm := rm_fd_ok _ _ _ hpe hreg
  have hmax : to_size_t (-1) = SIZE_MAX := by decide
  have hhdr : in_event_header env w = (w, true) := by
    unfold in_event_header
    rcases hdone with h | h <;> simp [h]
  have hlt : w.engine.handle < w.poller.heap.length := by
    rcases Nat.lt_or_ge w.engine.handle w.poller.heap.length with h | h
    · exact h
    · rw [List.getElem?_eq_none h] at hpe; cases hpe
  have hev : in_event env w = { w with
      engine := unplugged { w.engine with
        inpos := if env.process_buffer env.get_buffer.1 0 % 18446744073709551616 = SIZE_MAX
          then env.get_buffer.1
          else env.get_buffer.1 + env.process_buffer env.get_buffer.1 0 % 18446744073709551616
        insize := if env.process_buffer env.get_buffer.1 0 % 18446744073709551616 = SIZE_MAX
          then 0
          else (0 + 18446744073709551616
            - env.process_buffer env.get_buffer.1 0 % 18446744073709551616)
            % 18446744073709551616 }
      poller := removed w.poller w.engine.handle pe
      log := w.log ++
        [.get_buffer, .recv env.get_buffer.1 env.get_buffer.2,
          .process_buffer env.get_buffer.1 0, .flush, .error, .detach,
          .poller (.rm_fd w.engine.handle), .delete_this]
      status := .deleted } := by
    by_cases hproc : env.process_buffer env.get_buffer.1 0 % 18446744073709551616 = SIZE_MAX
    · simp [in_event, hhdr, hrun, in_event_fill, hempty, hread, hmax, world.record,
        in_event_process, reenter, hp, hf, hproc, in_event_flush, flush_session, hpl, hsess,
        report_disconnection, error, unplug, call_poller, poller_op.run, hrm, unplugged]
    · simp [in_event, hhdr, hrun, in_event_fill, hempty, hread, hmax, world.record,
        in_event_process, reenter, hp, hf, hproc, in_event_flush, flush_session, hpl, hsess,
        report_disconnection, error, unplug, call_poller, poller_op.run, hrm, unplugged]
  rw [hev]
  refine ⟨rfl, rfl, rfl, ?_, ?_, rfl, ?_, rfl, rfl⟩
  · simp [removed]; omega
  · simp [removed, hfd]
  · simp [removed, hlt]

/-- C3 (witness): a plugged legacy engine on fd `7` meets a reset connection. -/
theorem peer_failure_flush_then_error_witness :
    (in_event peer_reset (registered_world true)).log = (registered_world true).log ++
        [.get_buffer, .recv 100 8192, .process_buffer 100 0, .flush, .error, .detach,
          .poller (.rm_fd 0), .delete_this] ∧
      (in_event peer_reset (registered_world true)).status = .deleted ∧
      (in_event peer_reset (registered_world true)).poller.load
        = (registered_world true).poller.load - 1 := by
  have h := peer_failure_flush_then_error (registered_world true) ⟨7, 5, 0⟩ peer_reset
    ⟨rfl, rfl, by decide, rfl, rfl, by decide⟩ (Or.inl rfl) rfl (by decide) rfl rfl
  exact ⟨h.1, h.2.1, h.2.2.2.1⟩

/-! ## The engine: decoding and backpressure -/

theorem reset_pollin_ok (p : epoll_t) (h : Nat) (pe : poll_entry_t)
    (hpe : p.heap[h]? = some pe) (hreg : pe.fd ∈ p.interest) :
    (poller_op.reset_pollin h).run p = some (masked p h pe clear_in) := by
  simp only [poller_op.run, epoll_t.reset_pollin]
  exact set_mask_ok p h pe _ hpe hreg

theorem plugged_in_masked (w : world) (pe : poll_entry_t) (f : Nat → Nat) (l : List event)
    (e : stream_engine_t) (hw : plugged_in w pe)
    (he : e.plugged = w.engine.plugged ∧ e.session = w.engine.session ∧
      e.handle = w.engine.handle ∧ e.s = w.engine.s) :
    plugged_in { w with engine := e, poller := masked w.poller w.engine.handle pe f, log := l }
      { pe with ev_events := f pe.ev_events } := by
  obtain ⟨hrun, hpl, hsess, hpe, hfd, hreg⟩ := hw
  obtain ⟨h1, h2, h3, h4⟩ := he
  have hlt : w.engine.handle < w.poller.heap.length := by
    rcases Nat.lt_or_ge w.engine.handle w.poller.heap.length with h | h
    · exact h
    · rw [List.getElem?_eq_none h] at hpe; cases hpe
  refine ⟨hrun, by rw [h1]; exact hpl, by rw [h2]; exact hsess, ?_, by rw [h4]; exact hfd, hreg⟩
  simp [masked, h3, hlt]

theorem plugged_in_frame (w : world) (pe : poll_entry_t) (l : List event)
    (e : stream_engine_t) (hw : plugged_in w pe)
    (he : e.plugged = w.engine.plugged ∧ e.session = w.engine.session ∧
      e.handle = w.engine.handle ∧ e.s = w.engine.s) :
    plugged_in { w with engine := e, log := l } pe := by
  obtain ⟨hrun, hpl, hsess, hpe, hfd, hreg⟩ := hw
  obtain ⟨h1, h2, h3, h4⟩ := he
  exact ⟨hrun, by rw [h1]; exact hpl, by rw [h2]; exact hsess, by rw [h3]; exact hpe,
    by rw [h4]; exact hfd, hreg⟩

theorem flush_and_report (w : world) (pe : poll_entry_t) (env : in_env) (d : Bool)
    (hw : plugged_in w pe) (hf : env.flush_unplugs = false) :
    in_event_flush env d w =
      if d = true then failed (w.record .flush) pe else w.record .flush := by
  have hw2 : plugged_in (w.record .flush) pe := hw
  have herr := error_ok _ pe hw2
  obtain ⟨hrun, hpl, hsess, hpe, hfd, hreg⟩ := hw
  have hrun2 : (w.record .flush).status = .running := hrun
  have hsess2 : (w.record .flush).engine.session ≠ none := hsess
  cases d with
  | false =>
    simp [in_event_flush, flush_session, report_disconnection, reenter, hf, hrun, hpl,
      hsess, hrun2]
  | true =>
    simp only [in_event_flush, flush_session, report_disconnection, reenter, hf, hrun, hpl,
      hsess, failed]
    simp only [ne_eq, not_true_eq_false, if_false, Bool.true_eq_false, Bool.false_eq_true,
      and_true, not_false_eq_true, if_true]
    rw [if_neg (by simpa using hrun2), if_pos hsess2, herr]

theorem decode_step (w : world) (pe : poll_entry_t) (env : in_env) (d : Bool)
    (hw : plugged_in w pe) (hp : env.process_unplugs = false)
    (hc : env.process_buffer w.engine.inpos w.engine.insize ≤ w.engine.insize)
    (hsz : w.engine.insize < 18446744073709551616)
    (hne : env.process_buffer w.engine.inpos w.engine.insize ≠ SIZE_MAX) :
    in_event_process env d w = ({ w with
      engine := { w.engine with
        inpos := w.engine.inpos + env.process_buffer w.engine.inpos w.engine.insize
        insize := w.engine.insize - env.process_buffer w.engine.inpos w.engine.insize }
      poller := if env.process_buffer w.engine.inpos w.engine.insize < w.engine.insize
        then masked w.poller w.engine.handle pe clear_in else w.poller
      log := w.log ++ .process_buffer w.engine.inpos w.engine.insize ::
        (if env.process_buffer w.engine.inpos w.engine.insize < w.engine.insize
          then [.poller (.reset_pollin w.engine.handle)] else []) }, d) := by
  obtain ⟨hrun, hpl, hsess, hpe, hfd, hreg⟩ := hw
  have hmod : env.process_buffer w.engine.inpos w.engine.insize % 18446744073709551616
      = env.process_buffer w.engine.inpos w.engine.insize := Nat.mod_eq_of_lt (by omega)
  have hsub : (w.engine.insize + 18446744073709551616
      - env.process_buffer w.engine.inpos w.engine.insize) % 18446744073709551616
      = w.engine.insize - env.process_buffer w.engine.inpos w.engine.insize := by omega
  have hreset := reset_pollin_ok _ _ _ hpe hreg
  by_cases hlt : env.process_buffer w.engine.inpos w.engine.insize < w.engine.insize
  · simp [in_event_process, reenter, hp, world.record, hrun, hmod, hne, hlt, hpl,
      call_poller, hreset, hsub]
  · simp [in_event_process, reenter, hp, world.record, hrun, hmod, hne, hlt, hsub]

theorem decode_and_flush (w : world) (pe : poll_entry_t) (env : in_env) (d : Bool)
    (hw : plugged_in w pe) (hp : env.process_unplugs = false) (hf : env.flush_unplugs = false)
    (hc : env.process_buffer w.engine.inpos w.engine.insize ≤ w.engine.insize)
    (hsz : w.engine.insize < 18446744073709551616)
    (hne : env.process_buffer w.engine.inpos w.engine.insize ≠ SIZE_MAX) :
    in_event_flush env (in_event_process env d w).2 (in_event_process env d w).1 =
      if d = true then
        failed (decoded w pe (env.process_buffer w.engine.inpos w.engine.insize))
          (if env.process_buffer w.engine.inpos w.engine.insize < w.engine.insize
            then { pe with ev_events := clear_in pe.ev_events } else pe)
      else decoded w pe (env.process_buffer w.engine.inpos w.engine.insize) := by
  rw [decode_step w pe env d hw hp hc hsz hne]
  by_cases hlt : env.process_buffer w.engine.inpos w.engine.insize < w.engine.insize
  · simp only [hlt, if_true]
    have hw2 := plugged_in_masked w pe clear_in
      (w.log ++ [.process_buffer w.engine.inpos w.engine.insize,
        .poller (.reset_pollin w.engine.handle)])
      { w.engine with
        inpos := w.engine.inpos + env.process_buffer w.engine.inpos w.engine.insize
        insize := w.engine.insize - env.process_buffer w.engine.inpos w.engine.insize }
      hw ⟨rfl, rfl, rfl, rfl⟩
    rw [flush_and_report _ _ env d hw2 hf]
    cases d <;> simp [decoded, failed, world.record, hlt]
  · simp only [hlt, if_false]
    have hw2 := plugged_in_frame w pe
      (w.log ++ [.process_buffer w.engine.inpos w.engine.insize])
      { w.engine with
        inpos := w.engine.inpos + env.process_buffer w.engine.inpos w.engine.insize
        insize := w.engine.insize - env.process_buffer w.engine.inpos w.engine.insize }
      hw ⟨rfl, rfl, rfl, rfl⟩
    rw [flush_and_report _ _ env d hw2 hf]
    cases d <;> simp [decoded, failed, world.record, hlt]

theorem in_event_header_done (env : in_env) (w : world)
    (hdone : w.engine.options.legacy_protocol = true ∨ w.engine.header_received = true) :
    in_event_header env w = (w, true) := by
  unfold in_event_header
  rcases hdone with h | h <;> simp [h]

theorem in_event_fill_frame (env : in_env) (w : world) :
    (in_event_fill env w).1.self = w.self ∧
      (in_event_fill env w).1.poller = w.poller ∧
      (in_event_fill env w).1.engine = { w.engine with
        inpos := (in_event_fill env w).1.engine.inpos
        insize := (in_event_fill env w).1.engine.insize } ∧
      (w.engine.insize < 18446744073709551616 →
        (in_event_fill env w).1.engine.insize < 18446744073709551616) ∧
      ((in_event_fill env w).2 = true → (in_event_fill env w).1.engine.insize = 0) := by
  unfold in_event_fill
  split
  · simp only []
    split
    · rename_i h0 _ _
      refine ⟨rfl, rfl, ?_, fun h => h, by simp⟩
      simp only [world.abort, world.record]
    · split
      · simp [world.record]
      · refine ⟨rfl, rfl, rfl, fun _ => ?_, by simp⟩
        simp only [to_size_t]
        omega
  · exact ⟨rfl, rfl, rfl, fun h => h, by simp⟩

theorem plugged_in_fill (env : in_env) (w : world) (pe : poll_entry_t)
    (hw : plugged_in w pe) (hfill : (in_event_fill env w).1.status = .running) :
    plugged_in (in_event_fill env w).1 pe := by
  obtain ⟨_, hpl, hsess, hpe, hfd, hreg⟩ := hw
  obtain ⟨_, hpo, heng, _, _⟩ := in_event_fill_frame env w
  refine ⟨hfill, ?_, ?_, ?_, ?_, ?_⟩
  · rw [heng]; exact hpl
  · rw [heng]; exact hsess
  · rw [hpo, heng]; exact hpe
  · rw [heng]; exact hfd
  · rw [hpo]; exact hreg

theorem in_event_retained (env : in_env) (w : world) (hrun : w.status = .running)
    (hdone : w.engine.options.legacy_protocol = true ∨ w.engine.header_received = true)
    (hins : w.engine.insize ≠ 0) :
    ∃ rest, (in_event env w).log
        = w.log ++ .process_buffer w.engine.inpos w.engine.insize :: rest ∧
      ∀ e ∈ rest, closing_event e := by
  have hfill : in_event_fill env w = (w, false) := by simp [in_event_fill, hins]
  have hev : in_event env w
      = in_event_flush env (in_event_process env false w).2 (in_event_process env false w).1 := by
    simp [in_event, hrun, in_event_header_done env w hdone, hfill]
  obtain ⟨l1, h1, q1⟩ := in_event_process_log env false w
  obtain ⟨l2, h2, q2⟩ := in_event_flush_log env (in_event_process env false w).2
    (in_event_process env false w).1
  refine ⟨l1 ++ l2, by rw [hev, h2, h1]; simp, ?_⟩
  intro e he
  rcases List.mem_append.mp he with h | h
  · exact Or.inl (q1 e h)
  · exact q2 e h

theorem set_pollin_ok (p : epoll_t) (h : Nat) (pe : poll_entry_t)
    (hpe : p.heap[h]? = some pe) (hreg : pe.fd ∈ p.interest) :
    (poller_op.set_pollin h).run p = some (masked p h pe (fun m => m ||| EPOLLIN)) := by
  simp only [poller_op.run, epoll_t.set_pollin]
  exact set_mask_ok p h pe _ hpe hreg

/-! ## The engine: plug followed by unplug -/

theorem kept_poller_refl (h : Nat) (p : epoll_t) : kept_poller h p p :=
  ⟨rfl, rfl, rfl, Or.inl rfl⟩

theorem kept_poller_trans {h : Nat} {p q r : epoll_t} (h1 : kept_poller h p q)
    (h2 : kept_poller h q r) : kept_poller h p r := by
  obtain ⟨a1, b1, c1, d1⟩ := h1
  obtain ⟨a2, b2, c2, d2⟩ := h2
  refine ⟨a1.trans a2, b1.trans b2, c1.trans c2, ?_⟩
  rcases d1 with d1 | ⟨pe1, m1, hpe1, d1⟩
  · rcases d2 with d2 | ⟨pe2, m2, hpe2, d2⟩
    · exact Or.inl (d1.trans d2)
    · exact Or.inr ⟨pe2, m2, hpe2, d1.trans d2⟩
  · rcases d2 with d2 | ⟨pe2, m2, hpe2, d2⟩
    · rw [d2] at hpe1 d1
      exact Or.inr ⟨pe1, m1, hpe1, d1⟩
    · have hlt : h < r.heap.length := by
        rcases Nat.lt_or_ge h r.heap.length with hlt | hge
        · exact hlt
        · rw [List.getElem?_eq_none hge] at hpe2; cases hpe2
      rw [d2, List.getElem?_set_self hlt] at hpe1
      injection hpe1 with hpe1
      refine Or.inr ⟨pe2, m1, hpe2, ?_⟩
      rw [d1, d2, List.set_set, ← hpe1]

theorem kept_refl (w : world) : kept w w :=
  fun hs hp => ⟨hs, hp, rfl, rfl, rfl, kept_poller_refl _ _⟩

theorem kept_trans {a b c : world} (h1 : kept a b) (h2 : kept b c) : kept a c := by
  intro hs hp
  obtain ⟨hs1, hp1, x1, y1, z1, k1⟩ := h1 hs hp
  obtain ⟨hs2, hp2, x2, y2, z2, k2⟩ := h2 hs1 hp1
  refine ⟨hs2, hp2, x1.trans x2, y1.trans y2, z1.trans z2, ?_⟩
  rw [y2] at k1
  exact kept_poller_trans k1 k2

theorem kept_of_stopped (r w : world) (h : r.status ≠ .running) : kept r w :=
  fun hs _ => absurd hs h

theorem kept_of_unplugged (r w : world) (h : r.engine.plugged = false) : kept r w :=
  fun _ hp => by rw [h] at hp; cases hp

theorem kept_frame (r w : world) (h1 : r.status = w.status) (h2 : r.self = w.self)
    (h3 : r.poller = w.poller) (h4 : r.engine.plugged = w.engine.plugged)
    (h5 : r.engine.handle = w.engine.handle) (h6 : r.engine.s = w.engine.s) : kept r w := by
  intro hs hp
  refine ⟨h1 ▸ hs, h4 ▸ hp, h2, h5, h6, ?_⟩
  rw [h3]
  exact kept_poller_refl _ _

theorem set_mask_kept (p q : epoll_t) (h : Nat) (f : Nat → Nat)
    (hrun : p.set_mask h f = some q) : kept_poller h q p := by
  unfold epoll_t.set_mask at hrun
  cases hk : p.heap[h]? with
  | none => simp [hk] at hrun
  | some pe =>
    simp only [hk] at hrun
    split at hrun
    · injection hrun with hq
      subst hq
      exact ⟨rfl, rfl, rfl, Or.inr ⟨pe, f pe.ev_events, hk, rfl⟩⟩
    · cases hrun

theorem call_poller_kept (op : poller_op) (w : world)
    (hop : op = .set_pollin w.engine.handle ∨ op = .reset_pollin w.engine.handle ∨
      op = .set_pollout w.engine.handle ∨ op = .reset_pollout w.engine.handle) :
    kept (call_poller op w) w := by
  unfold call_poller
  split
  · exact kept_refl w
  · cases hrun : op.run w.poller with
    | none => exact kept_of_stopped _ _ (by simp [world.abort])
    | some q =>
      have hk : kept_poller w.engine.handle q w.poller := by
        rcases hop with h | h | h | h <;> subst h <;>
          exact set_mask_kept _ _ _ _ (by simpa [poller_op.run, epoll_t.set_pollin,
            epoll_t.reset_pollin, epoll_t.set_pollout, epoll_t.reset_pollout] using hrun)
      intro hs hp
      exact ⟨hs, hp, rfl, rfl, rfl, hk⟩

theorem unplug_kept (w : world) : kept (unplug w) w := by
  unfold unplug
  split
  · exact kept_refl w
  · split
    · exact kept_of_stopped _ _ (by simp [world.abort])
    · simp only []
      split
      · rename_i h
        exact kept_of_stopped _ _ h
      · apply kept_of_unplugged
        simp [call_poller_engine]

theorem error_kept (w : world) : kept (error w) w := by
  unfold error
  split
  · exact kept_refl w
  · simp only []
    split
    · exact kept_of_stopped _ _ (by simp [world.abort])
    · split
      · rename_i h
        exact kept_of_stopped _ _ h
      · exact kept_of_stopped _ _ (by simp)

theorem reenter_kept (b : Bool) (w : world) : kept (reenter b w) w := by
  unfold reenter
  split
  · exact unplug_kept w
  · exact kept_refl w

theorem record_kept (w : world) (ev : event) : kept (w.record ev) w :=
  kept_frame _ _ rfl rfl rfl rfl rfl rfl

theorem in_event_header_kept (env : in_env) (w : world) :
    kept (in_event_header env w).1 w := by
  unfold in_event_header
  split
  · simp only []
    split
    · exact kept_of_stopped _ _ (by simp [world.abort])
    · split
      · exact kept_trans (error_kept _) (record_kept _ _)
      · split
        · exact kept_frame _ _ rfl rfl rfl rfl rfl rfl
        · split
          · exact kept_trans (error_kept _) (kept_frame _ _ rfl rfl rfl rfl rfl rfl)
          · exact kept_frame _ _ rfl rfl rfl rfl rfl rfl
  · exact kept_refl w

theorem in_event_fill_kept (env : in_env) (w : world) :
    kept (in_event_fill env w).1 w := by
  unfold in_event_fill
  split
  · simp only []
    split
    · exact kept_of_stopped _ _ (by simp [world.abort])
    · split <;> exact kept_frame _ _ rfl rfl rfl rfl rfl rfl
  · exact kept_refl w

theorem in_event_process_kept (env : in_env) (d : Bool) (w : world) :
    kept (in_event_process env d w).1 w := by
  have h0 : kept (reenter env.process_unplugs
      (w.record (.process_buffer w.engine.inpos w.engine.insize))) w :=
    kept_trans (reenter_kept _ _) (record_kept _ _)
  unfold in_event_process
  simp only []
  split
  · exact h0
  · split
    · exact h0
    · split
      · refine kept_trans ?_ h0
        refine kept_trans ?_ (call_poller_kept _ _ (Or.inr (Or.inl rfl)))
        exact kept_frame _ _ rfl rfl rfl rfl rfl rfl
      · exact kept_trans (kept_frame _ _ rfl rfl rfl rfl rfl rfl) h0

theorem flush_session_kept (env : in_env) (w : world) : kept (flush_session env w) w := by
  unfold flush_session
  split
  · split
    · exact kept_of_stopped _ _ (by simp [world.abort])
    · exact kept_trans (reenter_kept _ _) (record_kept _ _)
  · split
    · exact kept_of_stopped _ _ (by simp [world.abort])
    · exact kept_trans (reenter_kept _ _) (record_kept _ _)

theorem report_disconnection_kept (d : Bool) (w : world) :
    kept (report_disconnection d w) w := by
  unfold report_disconnection
  split
  · exact kept_refl w
  · split
    · exact error_kept w
    · exact kept_refl w

theorem in_event_flush_kept (env : in_env) (d : Bool) (w : world) :
    kept (in_event_flush env d w) w := by
  unfold in_event_flush
  split
  · exact kept_refl w
  · exact kept_trans (report_disconnection_kept _ _) (flush_session_kept _ _)

theorem in_event_kept (env : in_env) (w : world) : kept (in_event env w) w := by
  unfold in_event
  split
  · exact kept_refl w
  · simp only []
    split
    · exact in_event_header_kept env w
    · split
      · exact kept_trans (in_event_fill_kept _ _) (in_event_header_kept env w)
      · exact kept_trans (in_event_flush_kept _ _ _)
          (kept_trans (in_event_process_kept _ _ _)
            (kept_trans (in_event_fill_kept _ _) (in_event_header_kept env w)))

theorem set_concat_length (l : List poll_entry_t) (a b : poll_entry_t) :
    (l ++ [a]).set l.length b = l ++ [b] := by
  induction l with
  | nil => rfl
  | cons x xs ih => simp [ih]

theorem getElem?_concat_self (l : List poll_entry_t) (a : poll_entry_t) :
    (l ++ [a])[l.length]? = some a := by
  induction l with
  | nil => rfl
  | cons x xs ih => simp [ih]

theorem plug_register_running (session_ : Option Nat) (w0 : world)
    (h : (plug_register session_ w0).status = .running) :
    w0.engine.s ∉ w0.poller.interest ∧
      (plug_register session_ w0).engine.plugged = true ∧
      (plug_register session_ w0).engine.handle = w0.poller.heap.length ∧
      (plug_register session_ w0).engine.s = w0.engine.s ∧
      (plug_register session_ w0).self = w0.self ∧
      (plug_register session_ w0).poller =
        { heap := w0.poller.heap ++ [⟨w0.engine.s, (0 ||| EPOLLIN) ||| EPOLLOUT, w0.self⟩]
          interest := w0.poller.interest ++ [w0.engine.s]
          retired := w0.poller.retired
          load := w0.poller.load + 1 } := by
  by_cases hrun : w0.status = .running
  swap
  · simp [plug_register, hrun] at h
  by_cases hpl : w0.engine.plugged = true
  · simp [plug_register, hrun, hpl, world.abort] at h
  by_cases hsess : w0.engine.session = none
  swap
  · simp [plug_register, hrun, hpl, hsess, world.abort] at h
  cases session_ with
  | none => simp [plug_register, hrun, hpl, hsess, world.abort] at h
  | some sess =>
    by_cases hadd : w0.engine.s < 0 ∨ w0.engine.s ∈ w0.poller.interest
    · simp [plug_register, hrun, hpl, hsess, call_poller, poller_op.run, epoll_t.add_fd,
        epoll_ctl_add, hadd, world.abort, world.record] at h
    · have hnot : w0.engine.s ∉ w0.poller.interest := fun hm => hadd (Or.inr hm)
      have hpl2 : w0.engine.plugged = false := by simpa using hpl
      refine ⟨hnot, ?_⟩
      simp [plug_register, hrun, hpl2, hsess, call_poller, poller_op.run, epoll_t.add_fd,
        epoll_ctl_add, hadd, world.abort, world.record, adjust_load, epoll_t.set_pollin,
        epoll_t.set_pollout, epoll_t.set_mask, epoll_ctl_mod, getElem?_concat_self,
        set_concat_length]

theorem unplug_running (w : world) (h : (unplug w).status = .running) :
    w.status = .running ∧ w.engine.plugged = true ∧
      ∃ q, w.poller.rm_fd w.engine.handle = some q ∧ (unplug w).poller = q := by
  by_cases hrun : w.status = .running
  swap
  · simp [unplug, hrun] at h
  by_cases hpl : w.engine.plugged = true
  swap
  · simp [unplug, hrun, hpl, world.abort] at h
  refine ⟨hrun, hpl, ?_⟩
  cases hrm : w.poller.rm_fd w.engine.handle with
  | none => simp [unplug, hrun, hpl, call_poller, poller_op.run, hrm, world.abort] at h
  | some q =>
    exact ⟨q, rfl, by simp [unplug, hrun, hpl, call_poller, poller_op.run, hrm, world.record]⟩

/-- C8: whatever the reactor state, the engine and the environment of the
`in_event` call that ends `plug`, if `plug` followed by `unplug` ends with the
engine still running (no assertion failed and the engine did not destroy
itself, so it was still plugged when `plug` returned), then `plug` has added
exactly the engine's fd to the registered fds and raised the load by one, and
after `unplug` the registered fds and the load are what they were before
`plug`; what is left is one more poll entry, marked `retired_fd`, owned by the
engine and queued on the retired list. -/
theorem plug_unplug_restores (session_ : Option Nat) (env : in_env) (w0 : world)
    (h : (unplug (plug session_ env w0)).status = .running) :
    (plug session_ env w0).poller.interest = w0.poller.interest ++ [w0.engine.s] ∧
      (plug session_ env w0).poller.load = w0.poller.load + 1 ∧
      (unplug (plug session_ env w0)).poller.interest = w0.poller.interest ∧
      (unplug (plug session_ env w0)).poller.load = w0.poller.load ∧
      (unplug (plug session_ env w0)).poller.retired
        = w0.poller.retired ++ [w0.poller.heap.length] ∧
      ∃ m, (unplug (plug session_ env w0)).poller.heap
        = w0.poller.heap ++ [⟨retired_fd, m, w0.self⟩] := by
  obtain ⟨hRrun, hRpl, q, hrm, hq⟩ := unplug_running _ h
  unfold plug at hRrun hRpl hrm hq ⊢
  obtain ⟨hPrun, hPpl, _, hhandle, _, hint, hload, hret, hheap⟩ :=
    in_event_kept env (plug_register session_ w0) hRrun hRpl
  obtain ⟨hnot, _, hPh, _, _, hPp⟩ := plug_register_running session_ w0 hPrun
  rw [hPp] at hint hload hret hheap
  rw [hPh] at hheap hhandle
  simp only [] at hint hload hret hheap
  have hRheap : ∃ m, (in_event env (plug_register session_ w0)).poller.heap
      = w0.poller.heap ++ [⟨w0.engine.s, m, w0.self⟩] := by
    rcases hheap with hh | ⟨pe, m, hpe, hh⟩
    · exact ⟨_, hh⟩
    · rw [getElem?_concat_self] at hpe
      injection hpe with hpe
      subst hpe
      exact ⟨m, by rw [hh, set_concat_length]⟩
  obtain ⟨m, hRheap⟩ := hRheap
  have hpe : (in_event env (plug_register session_ w0)).poller.heap[
      (in_event env (plug_register session_ w0)).engine.handle]?
      = some ⟨w0.engine.s, m, w0.self⟩ := by
    rw [hhandle, hRheap, getElem?_concat_self]
  have hrm2 := rm_fd_ok _ _ _ hpe (by rw [hint]; simp)
  rw [hrm2] at hrm
  injection hrm with hrm
  rw [hq, ← hrm]
  refine ⟨hint, hload, ?_, ?_, ?_, ⟨m, ?_⟩⟩
  · simp only [removed, hint]
    rw [List.erase_append_right _ hnot]
    simp
  · simp only [removed, hload]
    omega
  · simp only [removed, hret, hhandle]
  · simp only [removed, hRheap, hhandle, set_concat_length]

/-- C8 (witness): plugging the engine on fd `7` into a reactor that serves the
fds `5` and `6` and unplugging it again. -/
theorem plug_unplug_restores_witness :
    (plug (some 1) calm_in busy_world).poller.interest = [5, 6] ++ [7] ∧
      (plug (some 1) calm_in busy_world).poller.load = 2 + 1 ∧
      (unplug (plug (some 1) calm_in busy_world)).poller.interest = [5, 6] ∧
      (unplug (plug (some 1) calm_in busy_world)).poller.load = 2 ∧
      (unplug (plug (some 1) calm_in busy_world)).poller.retired = [] ++ [2] ∧
      ∃ m, (unplug (plug (some 1) calm_in busy_world)).poller.heap
        = [⟨5, 5, 0⟩, ⟨6, 5, 1⟩] ++ [⟨retired_fd, m, 0⟩] :=
  plug_unplug_restores (some 1) calm_in busy_world (by decide)

/-! ## The engine: the write path -/

theorem reset_pollout_ok (p : epoll_t) (h : Nat) (pe : poll_entry_t)
    (hpe : p.heap[h]? = some pe) (hreg : pe.fd ∈ p.interest) :
    (poller_op.reset_pollout h).run p = some (masked p h pe clear_out) := by
  simp only [poller_op.run, epoll_t.reset_pollout]
  exact set_mask_ok p h pe _ hpe hreg

theorem out_event_write_ok (w : world) (pe : poll_entry_t) (env : out_env) (more_data : Bool)
    (k : Nat) (hw : plugged_in w pe) (hsz : w.engine.outsize < 18446744073709551616)
    (hwr : write (env.data_send w.engine.outsize).nbytes
      (env.data_send w.engine.outsize).errno = some (k : Int))
    (hk : k ≤ w.engine.outsize) :
    out_event_write env more_data w = written w pe more_data k := by
  obtain ⟨hrun, hpl, hsess, hpe, hfd, hreg⟩ := hw
  have hne1 : (k : Int) ≠ -1 := by omega
  have hsub := to_size_t_sub w.engine.outsize k hk hsz
  have hpos : ((w.engine.outpos : Int) + (k : Int)).toNat = w.engine.outpos + k := by omega
  have hreset := reset_pollout_ok _ _ _ hpe hreg
  by_cases hcond : more_data = false ∧ w.engine.outsize - k = 0
  · simp [out_event_write, hrun, hwr, hne1, hsub, hpos, world.record, hcond, call_poller,
      hreset, written]
  · simp only [out_event_write, hrun, hwr, hne1, hsub, hpos, world.record, written]
    simp [hcond]

theorem out_event_write_fail (w : world) (pe : poll_entry_t) (env : out_env)
    (more_data : Bool) (hw : plugged_in w pe)
    (hwr : write (env.data_send w.engine.outsize).nbytes
      (env.data_send w.engine.outsize).errno = some (-1)) :
    out_event_write env more_data w
      = failed (w.record (.send w.engine.outpos w.engine.outsize)) pe := by
  have hw2 : plugged_in (w.record (.send w.engine.outpos w.engine.outsize)) pe := hw
  have herr := error_ok _ pe hw2
  have hrun : w.status = .running := hw.1
  simp only [out_event_write, hrun, hwr, failed]
  simp only [ne_eq, not_true_eq_false, if_false, if_true]
  rw [herr]

theorem out_event_header_done (env : out_env) (w : world)
    (hsent : w.engine.options.legacy_protocol = true ∨ w.engine.header_sent = true) :
    out_event_header env w = (w, true) := by
  unfold out_event_header
  rcases hsent with h | h <;> simp [h]

theorem out_event_reaches_write (w : world) (pe : poll_entry_t) (env : out_env)
    (hw : plugged_in w pe)
    (hsent : w.engine.options.legacy_protocol = true ∨ w.engine.header_sent = true)
    (hgd : env.get_data_unplugs = false)
    (hsize : (offered_out env w).engine.outsize ≠ 0) :
    out_event env w = out_event_write env (more_data_at_write env w) (offered_out env w) ∧
      plugged_in (offered_out env w) pe := by
  have hw0 := hw
  obtain ⟨hrun, hpl, hsess, hpe, hfd, hreg⟩ := hw
  by_cases h0 : w.engine.outsize = 0
  · have hsize2 : env.get_data.2.1 ≠ 0 := by simpa [offered_out, h0] using hsize
    refine ⟨?_, ?_⟩
    · simp [out_event, hrun, out_event_header_done env w hsent, h0, reenter, hgd,
        world.record, hpl, hsize2, offered_out, more_data_at_write]
    · simp only [offered_out, h0, if_true]
      exact plugged_in_frame w pe _ _ hw0 ⟨rfl, rfl, rfl, rfl⟩
  · refine ⟨?_, ?_⟩
    · simp [out_event, hrun, out_event_header_done env w hsent, h0, offered_out,
        more_data_at_write]
    · simpa [offered_out, h0] using hw0

/-- C10: take a plugged engine whose greeting has been sent (or which runs the
legacy protocol) and which `get_data` does not unplug, and let the out-buffer
hold `outsize > 0` bytes at the point of the write (the cursor of
`offered_out`: left over, with `more_data = true`, or just obtained from
`get_data` with its hint). Then one `out_event` makes exactly one `send` of
that buffer. If the write returns `n` with `0 ≤ n ≤ outsize`, the engine keeps
running, nothing but the `send` and possibly `reset_pollout` is logged (so no
`error ()`), the cursor becomes `(outpos + n, outsize - n)`, and
`reset_pollout` is called exactly when `more_data` is false and
`outsize - n = 0`. If the write returns -1, the `send` is followed by
`error ()`: detach, `rm_fd`, self-destruction. -/
theorem out_event_single_write (w : world) (pe : poll_entry_t) (env : out_env)
    (hw : plugged_in w pe)
    (hsent : w.engine.options.legacy_protocol = true ∨ w.engine.header_sent = true)
    (hgd : env.get_data_unplugs = false)
    (hsize : 0 < (offered_out env w).engine.outsize)
    (hsz : (offered_out env w).engine.outsize < 18446744073709551616) :
    (∀ n : Int,
      write (env.data_send (offered_out env w).engine.outsize).nbytes
        (env.data_send (offered_out env w).engine.outsize).errno = some n →
      0 ≤ n → n ≤ (offered_out env w).engine.outsize →
      out_event env w = written (offered_out env w) pe (more_data_at_write env w) n.toNat ∧
      (out_event env w).status = .running ∧
      (out_event env w).engine.outpos = (offered_out env w).engine.outpos + n.toNat ∧
      (out_event env w).engine.outsize = (offered_out env w).engine.outsize - n.toNat ∧
      (out_event env w).log = (offered_out env w).log ++
        .send (offered_out env w).engine.outpos (offered_out env w).engine.outsize ::
          (if more_data_at_write env w = false ∧
              (offered_out env w).engine.outsize - n.toNat = 0
            then [.poller (.reset_pollout w.engine.handle)] else []) ∧
      (event.poller (.reset_pollout w.engine.handle) ∈
          (out_event env w).log.drop (offered_out env w).log.length ↔
        more_data_at_write env w = false ∧ (out_event env w).engine.outsize = 0)) ∧
    (write (env.data_send (offered_out env w).engine.outsize).nbytes
        (env.data_send (offered_out env w).engine.outsize).errno = some (-1) →
      out_event env w = failed ((offered_out env w).record
        (.send (offered_out env w).engine.outpos (offered_out env w).engine.outsize)) pe ∧
      (out_event env w).log = (offered_out env w).log ++
        [.send (offered_out env w).engine.outpos (offered_out env w).engine.outsize,
          .error, .detach, .poller (.rm_fd w.engine.handle), .delete_this]) := by
  obtain ⟨hev, hwO⟩ := out_event_reaches_write w pe env hw hsent hgd (by omega)
  have hhandle : (offered_out env w).engine.handle = w.engine.handle := by
    unfold offered_out; split <;> rfl
  have hrunO : (offered_out env w).status = .running := hwO.1
  refine ⟨?_, ?_⟩
  · intro n hwr h0 hle
    obtain ⟨k, rfl⟩ := Int.eq_ofNat_of_zero_le h0
    have hk : k ≤ (offered_out env w).engine.outsize := by omega
    have hres := out_event_write_ok (offered_out env w) pe env (more_data_at_write env w) k
      hwO hsz hwr hk
    have hk2 : (k : Int).toNat = k := Int.toNat_ofNat k
    rw [hev, hres, hk2]
    have hlog : (written (offered_out env w) pe (more_data_at_write env w) k).log
        = (offered_out env w).log ++
          .send (offered_out env w).engine.outpos (offered_out env w).engine.outsize ::
            (if more_data_at_write env w = false ∧
                (offered_out env w).engine.outsize - k = 0
              then [.poller (.reset_pollout w.engine.handle)] else []) := by
      simp [written, hhandle]
    refine ⟨rfl, hrunO, rfl, rfl, hlog, ?_⟩
    rw [hlog, List.drop_left]
    by_cases hc : more_data_at_write env w = false ∧
        (offered_out env w).engine.outsize - k = 0
    · simp [hc, written]
    · simp only [hc, if_false, written]
      simp
  · intro hwr
    have hres := out_event_write_fail (offered_out env w) pe env (more_data_at_write env w)
      hwO hwr
    rw [hev, hres]
    exact ⟨rfl, by simp [failed, world.record, hhandle]⟩

/-- C10 (witness): a plugged legacy engine with an empty out-buffer gets the
encoder's last eight bytes and the socket takes all of them: the engine keeps
running, the buffer is empty, and `reset_pollout` is called. -/
theorem out_event_single_write_witness :
    (out_event drain_out (registered_world true)).status = .running ∧
      (out_event drain_out (registered_world true)).engine.outsize = 0 ∧
      (out_event drain_out (registered_world true)).log =
        (offered_out drain_out (registered_world true)).log ++
          [.send 50 8, .poller (.reset_pollout 0)] ∧
      event.poller (.reset_pollout 0) ∈
        (out_event drain_out (registered_world true)).log.drop 4 := by
  have h := (out_event_single_write (registered_world true) ⟨7, 5, 0⟩ drain_out
    ⟨rfl, rfl, by decide, rfl, rfl, by decide⟩ (Or.inl rfl) rfl (by decide) (by decide)).1 8
    (by decide) (by decide) (by decide)
  exact ⟨h.2.1, h.2.2.2.1, h.2.2.2.2.1, h.2.2.2.2.2.mpr ⟨by decide, by decide⟩⟩

/-! ## The engine: backpressure, with and without an unplug by the decoder -/

theorem clear_in_not_armed (m : Nat) : clear_in m &&& EPOLLIN = 0 := by
  unfold clear_in EPOLLIN
  rw [Nat.and_assoc]
  simp

theorem set_in_armed (m : Nat) : (m ||| EPOLLIN) &&& EPOLLIN = EPOLLIN := by
  simp [EPOLLIN]

theorem map_set_same {α β : Type} (f : α → β) (l : List α) (h : Nat) (x pe : α)
    (hpe : l[h]? = some pe) (hf : f x = f pe) : (l.set h x).map f = l.map f := by
  induction l generalizing h with
  | nil => simp
  | cons a t ih =>
    cases h with
    | zero =>
      simp at hpe
      subst hpe
      simp [hf]
    | succ n =>
      simp at hpe
      simp [ih n hpe]

theorem same_masks_lookup (p q : epoll_t) (h : Nat) (pe : poll_entry_t)
    (hm : same_masks p q) (hpe : q.heap[h]? = some pe) :
    ∃ fd, p.heap[h]? = some ⟨fd, pe.ev_events, pe.events⟩ := by
  unfold same_masks at hm
  have h1 : (p.heap.map (fun e => (e.ev_events, e.events)))[h]?
      = some (pe.ev_events, pe.events) := by
    rw [hm, List.getElem?_map, hpe]; rfl
  rw [List.getElem?_map] at h1
  cases hp : p.heap[h]? with
  | none => rw [hp] at h1; cases h1
  | some x =>
    rw [hp] at h1
    simp only [Option.map_some'] at h1
    injection h1 with h1
    injection h1 with ha hb
    exact ⟨x.fd, by cases x; simp_all⟩

theorem rm_fd_same_masks (p q : epoll_t) (h : Nat) (hrun : p.rm_fd h = some q) :
    same_masks q p := by
  unfold epoll_t.rm_fd at hrun
  cases hk : p.heap[h]? with
  | none => simp [hk] at hrun
  | some pk =>
    simp only [hk] at hrun
    cases hd : epoll_ctl_del p.interest pk.fd with
    | none => simp [hd] at hrun
    | some i =>
      simp only [hd] at hrun
      injection hrun with hq
      subst hq
      exact map_set_same _ _ _ _ pk hk rfl

theorem flushed_refl (w : world) : flushed w w :=
  ⟨rfl, rfl, rfl, [], by simp, by simp⟩

theorem flushed_trans {a b c : world} (h1 : flushed a b) (h2 : flushed b c) :
    flushed a c := by
  obtain ⟨x1, y1, m1, t1, l1, q1⟩ := h1
  obtain ⟨x2, y2, m2, t2, l2, q2⟩ := h2
  refine ⟨x1.trans x2, y1.trans y2, m1.trans m2, t2 ++ t1, by rw [l1, l2]; simp, ?_⟩
  intro e he
  rcases List.mem_append.mp he with h | h
  · exact q2 e h
  · exact q1 e h

theorem flushed_record (w : world) (ev : event) (h : teardown_event ev) :
    flushed (w.record ev) w :=
  ⟨rfl, rfl, rfl, [ev], rfl, by simpa using h⟩

theorem call_rm_fd_flushed (h : Nat) (w : world) :
    flushed (call_poller (.rm_fd h) w) w := by
  unfold call_poller
  split
  · exact flushed_refl w
  · cases hrun : (poller_op.rm_fd h).run w.poller with
    | none => exact flushed_record w _ (by simp [teardown_event])
    | some q =>
      exact ⟨rfl, rfl, rm_fd_same_masks _ _ h hrun, [.poller (.rm_fd h)], rfl,
        by simp [teardown_event]⟩

theorem unplug_flushed (w : world) : flushed (unplug w) w := by
  unfold unplug
  split
  · exact flushed_refl w
  · split
    · exact flushed_refl w
    · have h0 := call_rm_fd_flushed w.engine.handle
        { w with engine := { w.engine with plugged := false } }
      simp only []
      split
      · exact h0
      · obtain ⟨x, y, m, t⟩ := h0
        exact ⟨x, y, m, t⟩

theorem reenter_flushed (b : Bool) (w : world) : flushed (reenter b w) w := by
  unfold reenter
  split
  · exact unplug_flushed w
  · exact flushed_refl w

theorem error_flushed (w : world) : flushed (error w) w := by
  unfold error
  split
  · exact flushed_refl w
  · simp only []
    split
    · exact flushed_record w _ (by simp [teardown_event])
    · have h0 : flushed (unplug ((w.record .error).record .detach)) w :=
        flushed_trans (unplug_flushed _)
          (flushed_trans (flushed_record _ _ (by simp [teardown_event]))
            (flushed_record _ _ (by simp [teardown_event])))
      split
      · exact h0
      · exact flushed_trans
          (flushed_record (unplug ((w.record .error).record .detach)) .delete_this
            (by simp [teardown_event])) h0

theorem flush_session_flushed (env : in_env) (w : world) :
    flushed (flush_session env w) w := by
  unfold flush_session
  split
  · split
    · exact flushed_refl w
    · exact flushed_trans (reenter_flushed _ _)
        (flushed_record _ _ (by simp [teardown_event]))
  · split
    · exact flushed_refl w
    · exact flushed_trans (reenter_flushed _ _)
        (flushed_record _ _ (by simp [teardown_event]))

theorem report_disconnection_flushed (d : Bool) (w : world) :
    flushed (report_disconnection d w) w := by
  unfold report_disconnection
  split
  · exact flushed_refl w
  · split
    · exact error_flushed w
    · exact flushed_refl w

theorem in_event_flush_flushed (env : in_env) (d : Bool) (w : world) :
    flushed (in_event_flush env d w) w := by
  unfold in_event_flush
  split
  · exact flushed_refl w
  · exact flushed_trans (report_disconnection_flushed _ _) (flush_session_flushed _ _)

theorem decode_step_unplugged (w : world) (pe : poll_entry_t) (env : in_env) (d : Bool)
    (hw : plugged_in w pe) (hp : env.process_unplugs = true)
    (hc : env.process_buffer w.engine.inpos w.engine.insize ≤ w.engine.insize)
    (hsz : w.engine.insize < 18446744073709551616)
    (hne : env.process_buffer w.engine.inpos w.engine.insize ≠ SIZE_MAX) :
    in_event_process env d w = ({ w with
      engine := { unplugged w.engine with
        inpos := w.engine.inpos + env.process_buffer w.engine.inpos w.engine.insize
        insize := w.engine.insize - env.process_buffer w.engine.inpos w.engine.insize }
      poller := removed w.poller w.engine.handle pe
      log := w.log ++ [.process_buffer w.engine.inpos w.engine.insize,
        .poller (.rm_fd w.engine.handle)] }, d) := by
  have hw2 : plugged_in (w.record (.process_buffer w.engine.inpos w.engine.insize)) pe := hw
  have hu := unplug_ok _ pe hw2
  obtain ⟨hrun, hpl, hsess, hpe, hfd, hreg⟩ := hw
  have hmod : env.process_buffer w.engine.inpos w.engine.insize % 18446744073709551616
      = env.process_buffer w.engine.inpos w.engine.insize := Nat.mod_eq_of_lt (by omega)
  have hsub : (w.engine.insize + 18446744073709551616
      - env.process_buffer w.engine.inpos w.engine.insize) % 18446744073709551616
      = w.engine.insize - env.process_buffer w.engine.inpos w.engine.insize := by omega
  simp only [in_event_process, reenter, hp, if_true]
  rw [hu]
  simp [hrun, hmod, hne, hsub, unplugged, world.record]

theorem decode_step_facts (w : world) (pe : poll_entry_t) (env : in_env) (d : Bool)
    (hw : plugged_in w pe)
    (hc : env.process_buffer w.engine.inpos w.engine.insize ≤ w.engine.insize)
    (hsz : w.engine.insize < 18446744073709551616)
    (hne : env.process_buffer w.engine.inpos w.engine.insize ≠ SIZE_MAX) :
    (in_event_process env d w).2 = d ∧
      (in_event_process env d w).1.engine.inpos
        = w.engine.inpos + env.process_buffer w.engine.inpos w.engine.insize ∧
      (in_event_process env d w).1.engine.insize
        = w.engine.insize - env.process_buffer w.engine.inpos w.engine.insize ∧
      (in_event_process env d w).1.log = w.log ++
        .process_buffer w.engine.inpos w.engine.insize ::
          (if env.process_unplugs = true then [.poller (.rm_fd w.engine.handle)]
            else if env.process_buffer w.engine.inpos w.engine.insize < w.engine.insize
              then [.poller (.reset_pollin w.engine.handle)] else []) ∧
      ∃ fd, (in_event_process env d w).1.poller.heap[w.engine.handle]? = some
        ⟨fd,
          if env.process_buffer w.engine.inpos w.engine.insize < w.engine.insize ∧
              env.process_unplugs = false
            then clear_in pe.ev_events else pe.ev_events,
          pe.events⟩ := by
  have hpe : w.poller.heap[w.engine.handle]? = some pe := hw.2.2.2.1
  have hlt : w.engine.handle < w.poller.heap.length := by
    rcases Nat.lt_or_ge w.engine.handle w.poller.heap.length with h | h
    · exact h
    · rw [List.getElem?_eq_none h] at hpe; cases hpe
  cases hp : env.process_unplugs with
  | true =>
    rw [decode_step_unplugged w pe env d hw hp hc hsz hne]
    refine ⟨rfl, rfl, rfl, by simp, retired_fd, ?_⟩
    simp [removed, hlt]
  | false =>
    rw [decode_step w pe env d hw hp hc hsz hne]
    refine ⟨rfl, rfl, rfl, by simp, pe.fd, ?_⟩
    by_cases hcl : env.process_buffer w.engine.inpos w.engine.insize < w.engine.insize
    · simp [hcl, masked, hlt]
    · simp [hcl, hpe]

/-- C5 (as amended): take a plugged engine past the handshake and let
`in_event` reach the decoder with the cursor `(inpos, insize)` of `offered_in`;
the decoder returns a count `c ≤ insize` that is not the error sentinel, and
any callback may unplug the engine. Then the cursor becomes
`(inpos + c, insize - c)`. `reset_pollin` is called, and the armed mask of the
engine's poll entry loses EPOLLIN, exactly when `c < insize` and the engine is
still plugged when the decoder returns; otherwise the mask is left as it was
(an unplug by the decoder is logged as `rm_fd` instead). What follows in the
log is flush and teardown only. When no callback unplugs the engine and
`c < insize`, the engine keeps running with EPOLLIN cleared in its entry; a
following `activate_in` sets EPOLLIN in that entry again and re-enters
`in_event`, which offers the decoder exactly `insize - c` bytes at `inpos + c`
and makes no socket read. -/
theorem backpressure_keeps_buffer (w : world) (pe : poll_entry_t) (env : in_env)
    (hw : plugged_in w pe)
    (hdone : w.engine.options.legacy_protocol = true ∨ w.engine.header_received = true)
    (hsz : w.engine.insize < 18446744073709551616)
    (hfill : (offered_in env w).status = .running)
    (hc : consumed env w ≤ (offered_in env w).engine.insize)
    (hne : consumed env w ≠ SIZE_MAX) :
    (in_event env w).engine.inpos = (offered_in env w).engine.inpos + consumed env w ∧
      (in_event env w).engine.insize = (offered_in env w).engine.insize - consumed env w ∧
      (∃ tail, (in_event env w).log = (offered_in env w).log ++
          .process_buffer (offered_in env w).engine.inpos (offered_in env w).engine.insize ::
            ((if env.process_unplugs = true then [.poller (.rm_fd w.engine.handle)]
              else if consumed env w < (offered_in env w).engine.insize
                then [.poller (.reset_pollin w.engine.handle)] else []) ++ tail) ∧
        ∀ e ∈ tail, teardown_event e) ∧
      (event.poller (.reset_pollin w.engine.handle) ∈
          (in_event env w).log.drop (offered_in env w).log.length ↔
        consumed env w < (offered_in env w).engine.insize ∧ env.process_unplugs = false) ∧
      (∃ fd, (in_event env w).poller.heap[w.engine.handle]? = some
        ⟨fd,
          if consumed env w < (offered_in env w).engine.insize ∧ env.process_unplugs = false
            then clear_in pe.ev_events else pe.ev_events,
          pe.events⟩) ∧
      clear_in pe.ev_events &&& EPOLLIN = 0 ∧
      (env.process_unplugs = false → env.flush_unplugs = false →
        consumed env w < (offered_in env w).engine.insize →
        (in_event env w).status = .running ∧
        (in_event env w).poller = masked w.poller w.engine.handle pe clear_in ∧
        (∀ env2 : in_env, activate_in env2 (in_event env w)
          = in_event env2 (call_poller (.set_pollin w.engine.handle) (in_event env w))) ∧
        (call_poller (.set_pollin w.engine.handle) (in_event env w)).poller.heap[
            w.engine.handle]?
          = some ⟨pe.fd, clear_in pe.ev_events ||| EPOLLIN, pe.events⟩ ∧
        (clear_in pe.ev_events ||| EPOLLIN) &&& EPOLLIN = EPOLLIN ∧
        ∀ env2 : in_env, ∃ rest,
          (activate_in env2 (in_event env w)).log = (in_event env w).log ++
            .poller (.set_pollin w.engine.handle) ::
            .process_buffer ((offered_in env w).engine.inpos + consumed env w)
              ((offered_in env w).engine.insize - consumed env w) :: rest ∧
          ∀ e ∈ rest, closing_event e) := by
  unfold consumed offered_in at *
  have hrun : w.status = .running := hw.1
  have hpe0 : w.poller.heap[w.engine.handle]? = some pe := hw.2.2.2.1
  have hlt0 : w.engine.handle < w.poller.heap.length := by
    rcases Nat.lt_or_ge w.engine.handle w.poller.heap.length with h | h
    · exact h
    · rw [List.getElem?_eq_none h] at hpe0; cases hpe0
  obtain ⟨_, hpo, heng, hszF, hdF⟩ := in_event_fill_frame env w
  have hwF := plugged_in_fill env w pe hw hfill
  have hhandle : (in_event_fill env w).1.engine.handle = w.engine.handle := by rw [heng]
  have hev : in_event env w =
      in_event_flush env
        (in_event_process env (in_event_fill env w).2 (in_event_fill env w).1).2
        (in_event_process env (in_event_fill env w).2 (in_event_fill env w).1).1 := by
    simp [in_event, hrun, in_event_header_done env w hdone, hfill]
  obtain ⟨_, hPpos, hPsize, hPlog, fd1, hPheap⟩ := decode_step_facts (in_event_fill env w).1 pe
    env (in_event_fill env w).2 hwF hc (hszF hsz) hne
  obtain ⟨hFpos, hFsize, hFmask, tail, hFlog, hFtail⟩ := in_event_flush_flushed env
    (in_event_process env (in_event_fill env w).2 (in_event_fill env w).1).2
    (in_event_process env (in_event_fill env w).2 (in_event_fill env w).1).1
  rw [← hev] at hFpos hFsize hFmask hFlog
  rw [hhandle] at hPlog hPheap
  have hlog : (in_event env w).log = (in_event_fill env w).1.log ++
      .process_buffer (in_event_fill env w).1.engine.inpos
          (in_event_fill env w).1.engine.insize ::
        ((if env.process_unplugs = true then [.poller (.rm_fd w.engine.handle)]
          else if env.process_buffer (in_event_fill env w).1.engine.inpos
              (in_event_fill env w).1.engine.insize < (in_event_fill env w).1.engine.insize
            then [.poller (.reset_pollin w.engine.handle)] else []) ++ tail) := by
    rw [hFlog, hPlog]; simp
  have hnotail : event.poller (.reset_pollin w.engine.handle) ∉ tail := by
    intro hmem
    rcases hFtail _ hmem with h | h | h | h | h | ⟨k, h⟩ <;> cases h
  refine ⟨hFpos.trans hPpos, hFsize.trans hPsize, ⟨tail, hlog, hFtail⟩, ?_, ?_,
    clear_in_not_armed _, ?_⟩
  · rw [hlog, List.drop_left]
    cases hp : env.process_unplugs <;>
      by_cases hcl : env.process_buffer (in_event_fill env w).1.engine.inpos
        (in_event_fill env w).1.engine.insize < (in_event_fill env w).1.engine.insize <;>
      simp [hcl, hnotail]
  · obtain ⟨fd, hfd⟩ := same_masks_lookup _ _ _ _ hFmask hPheap
    exact ⟨fd, hfd⟩
  · intro hp hf hcl
    have hdec := decode_and_flush (in_event_fill env w).1 pe env (in_event_fill env w).2
      hwF hp hf hc (hszF hsz) hne
    have hd : (in_event_fill env w).2 = false := by
      cases hd : (in_event_fill env w).2 with
      | false => rfl
      | true => have := hdF hd; omega
    rw [hd] at hdec hev
    rw [hdec] at hev
    simp only [Bool.false_eq_true, if_false] at hev
    generalize hF : (in_event_fill env w).1 = F at *
    generalize hcdef : env.process_buffer F.engine.inpos F.engine.insize = c at *
    have hw1 : plugged_in (decoded F pe c) { pe with ev_events := clear_in pe.ev_events } := by
      have := plugged_in_masked F pe clear_in (decoded F pe c).log (decoded F pe c).engine hwF
        ⟨rfl, rfl, rfl, rfl⟩
      simpa [decoded, hcl] using this
    have hh1 : (decoded F pe c).engine.handle = w.engine.handle := hhandle
    have hset := set_pollin_ok _ _ _ hw1.2.2.2.1 hw1.2.2.2.2.2
    have hcall := call_poller_ok (.set_pollin (decoded F pe c).engine.handle) (decoded F pe c) _
      hw1.1 hset
    rw [hh1] at hcall
    have hdone2 : (decoded F pe c).engine.options.legacy_protocol = true ∨
        (decoded F pe c).engine.header_received = true := by
      have h1 : F.engine.options = w.engine.options := by rw [heng]
      have h2 : F.engine.header_received = w.engine.header_received := by rw [heng]
      simpa [decoded, h1, h2] using hdone
    have hins : (decoded F pe c).engine.insize ≠ 0 := by
      simp only [decoded]; omega
    have hact : ∀ env2 : in_env, activate_in env2 (decoded F pe c)
        = in_event env2 (call_poller (.set_pollin w.engine.handle) (decoded F pe c)) := by
      intro env2
      unfold activate_in
      rw [hh1]
    have hpoll : (decoded F pe c).poller = masked w.poller w.engine.handle pe clear_in := by
      simp [decoded, hcl, hpo, hhandle]
    rw [hev]
    refine ⟨hw1.1, hpoll, hact, ?_, set_in_armed _, ?_⟩
    · rw [hcall]
      simp only [masked, hpoll]
      simp [hlt0]
    · intro env2
      obtain ⟨rest, hrest, hq⟩ := in_event_retained env2
        { decoded F pe c with
          poller := masked (decoded F pe c).poller w.engine.handle
            { pe with ev_events := clear_in pe.ev_events } (fun m => m ||| EPOLLIN)
          log := (decoded F pe c).log ++ [.poller (.set_pollin w.engine.handle)] }
        hw1.1 hdone2 hins
      refine ⟨rest, ?_, hq⟩
      rw [hact env2, hcall]
      refine hrest.trans ?_
      simp [decoded]

/-- C5 (witness): `insize = 10` and `c = 3` at a plugged legacy engine whose
decoder buffer starts at offset `100` and whose entry is armed with mask `5`
(EPOLLIN and EPOLLOUT): seven bytes stay at offset `103`, `reset_pollin` is
called and leaves mask `4`, and `activate_in` arms mask `5` again and offers
those seven bytes again. -/
theorem backpressure_keeps_buffer_witness :
    (in_event backlog (registered_world true)).engine.inpos = 103 ∧
      (in_event backlog (registered_world true)).engine.insize = 7 ∧
      event.poller (.reset_pollin 0) ∈
        (in_event backlog (registered_world true)).log.drop 5 ∧
      (in_event backlog (registered_world true)).poller.heap[0]? = some ⟨7, 4, 0⟩ ∧
      (call_poller (.set_pollin 0) (in_event backlog (registered_world true))).poller.heap[0]?
        = some ⟨7, 5, 0⟩ ∧
      ∃ rest, (activate_in calm_in (in_event backlog (registered_world true))).log
          = (in_event backlog (registered_world true)).log ++
            .poller (.set_pollin 0) :: .process_buffer 103 7 :: rest ∧
        ∀ e ∈ rest, closing_event e := by
  obtain ⟨h1, h2, _, h4, _, _, h7⟩ := backpressure_keeps_buffer (registered_world true)
    ⟨7, 5, 0⟩ backlog ⟨rfl, rfl, by decide, rfl, rfl, by decide⟩ (Or.inl rfl) (by decide)
    (by decide) (by decide) (by decide)
  obtain ⟨_, hpoll, _, harm, _, hact⟩ := h7 rfl rfl (by decide)
  exact ⟨h1, h2, h4.mpr ⟨by decide, rfl⟩, by rw [hpoll]; decide, harm, hact calm_in⟩

/-- C5 (counterexample to the claim as stated): a plugged legacy engine offers
the decoder ten bytes and the decoder returns `3`, so `c < insize`; the engine
is unplugged while the decoder runs, and `in_event` does not call
`reset_pollin`: the mask of the entry still holds EPOLLIN (`5`). -/
theorem handover_skips_reset_pollin :
    (registered_world true).engine.plugged = true ∧
      event.process_buffer 100 10 ∈ (in_event handover (registered_world true)).log ∧
      handover.process_buffer 100 10 = 3 ∧
      (in_event handover (registered_world true)).status = .running ∧
      (in_event handover (registered_world true)).engine.insize = 7 ∧
      event.poller (.reset_pollin 0) ∉ (in_event handover (registered_world true)).log ∧
      (in_event handover (registered_world true)).poller.heap[0]? = some ⟨retired_fd, 5, 0⟩ := by
  decide

end xs
